import Mathlib

/-!
# Verification of the mermaid-linter core against its specification

This file gives a shallow embedding, in Lean 4, of the core data model and
operations of the `mermaid-linter` Rust crate (a non-rendering parser and
linter for Mermaid diagram sources), together with theorems settling the
specification claims about the code.

Modelling conventions:

* Rust `&str`/`String` values are modelled as `List Char` (the abbreviation
  `Str` below).  Byte offsets are modelled as character indices; all the
  concrete sources examined in the theorems are ASCII, where the two agree.
* Rust `HashMap<String, String>` property bags are modelled as association
  lists in insertion order with replace-on-insert, which preserves exactly
  the observable lookup behaviour used by the code.
* Whitespace is modelled as the ASCII whitespace characters
  (space, tab, newline, carriage return).
* Loops of the Rust code that walk a token or character buffer are modelled
  by fuelled recursion; the fuel passed by the wrappers always exceeds the
  number of iterations the Rust loop can make (each iteration consumes at
  least one element), so the fuelled function agrees with the loop.
* The behaviour of the external crates used by the code (`regex`, `logos`,
  `serde_yaml`, `serde_json`) is embedded directly: each regular expression
  appearing in the source is realised as a dedicated matching function with
  the leftmost/greedy semantics of the `regex` crate, the `logos` lexer is
  realised as a maximal-munch tokenizer with the `logos` priority rules,
  and the YAML/JSON readers are realised on the sub-languages the linter
  feeds them.
-/

set_option maxHeartbeats 1000000
set_option maxRecDepth 8000

abbrev Str := List Char

/-- Character constants written via code points to keep the file free of
delimiter-character literals. -/
def quoteC : Char := Char.ofNat 34

def aposC : Char := Char.ofNat 39

def backtickC : Char := Char.ofNat 96

def lbraceC : Char := Char.ofNat 123

def rbraceC : Char := Char.ofNat 125

def lbrackC : Char := Char.ofNat 91

def rbrackC : Char := Char.ofNat 93

/-- ASCII whitespace, the model of Rust `char::is_whitespace` / regex `\s`
on the character set exercised here. -/
def isWs (c : Char) : Bool :=
  c = ' ' || c = '\t' || c = '\n' || c = '\r'

/-- Model of regex `\w` (word character). -/
def isWordChar (c : Char) : Bool :=
  ('a' ≤ c && c ≤ 'z') || ('A' ≤ c && c ≤ 'Z') || ('0' ≤ c && c ≤ '9') || c = '_'

def isDigitC (c : Char) : Bool :=
  '0' ≤ c && c ≤ '9'

/-- ASCII lower-casing, the model of Rust `to_lowercase` on the inputs used. -/
def lowerC (c : Char) : Char :=
  if 'A' ≤ c && c ≤ 'Z' then Char.ofNat (c.toNat + 32) else c

def upperC (c : Char) : Char :=
  if 'a' ≤ c && c ≤ 'z' then Char.ofNat (c.toNat - 32) else c

def lowerStr (s : Str) : Str := s.map lowerC

def upperStr (s : Str) : Str := s.map upperC

/-- Rust `str::trim_start` (on ASCII whitespace). -/
def trimStart (s : Str) : Str := s.dropWhile (fun c => isWs c)

/-- Rust `str::trim_end`. -/
def trimEnd (s : Str) : Str := (s.reverse.dropWhile (fun c => isWs c)).reverse

/-- Rust `str::trim`. -/
def trimStr (s : Str) : Str := trimEnd (trimStart s)

/-- Case-insensitive prefix test (model of a `(?i)` literal match). -/
def isPrefixOfCI (pat s : Str) : Bool :=
  lowerStr pat |>.isPrefixOf (lowerStr (s.take pat.length))

/-- `src/ast/common.rs`: a byte-offset span over the processed source. -/
structure Span where
  start : Nat
  stop : Nat
  deriving DecidableEq, Repr

instance : Inhabited Span := ⟨⟨0, 0⟩⟩

/-- `Span::new`. -/
def Span.new (start stop : Nat) : Span := ⟨start, stop⟩

/-- `Span::default` (Rust `#[derive(Default)]`). -/
def Span.default : Span := ⟨0, 0⟩

/-- `src/diagnostic/mod.rs`: severity of a diagnostic. -/
inductive Severity where
  | Error
  | Warning
  | Info
  | Hint
  deriving DecidableEq, Repr

/-- `Severity::is_error`. -/
def Severity.isError : Severity → Bool
  | .Error => true
  | _ => false

/-- `src/diagnostic/codes.rs`: the closed enum of diagnostic codes. -/
inductive DiagnosticCode where
  | UnknownDiagram
  | PreprocessError
  | FrontmatterParseError
  | DirectiveParseError
  | InvalidDirective
  | DirectiveJsonError
  | LexerError
  | UnterminatedString
  | InvalidEscape
  | ParserError
  | UnexpectedToken
  | ExpectedToken
  | UnexpectedEof
  | InvalidSyntaxCode
  | MissingElement
  | DuplicateDefinition
  | SemanticError
  | UndefinedReference
  | InvalidValue
  | ConstraintViolation
  | InvalidDirection
  | InvalidNodeShape
  | InvalidEdgeType
  | SubgraphError
  | InvalidArrowType
  | InvalidParticipant
  | InvalidActivation
  | InvalidRelationType
  | InvalidVisibility
  | InvalidMember
  | InvalidStateType
  | InvalidTransition
  | PacketInvalidBitRange
  | PacketNonContiguous
  | TreemapInvalidStructure
  | GanttInvalidDate
  deriving DecidableEq, Repr

/-- `DiagnosticCode::as_str` (the Rust variant `InvalidSyntax` is spelled
`InvalidSyntaxCode` here; the stable string codes are unchanged). -/
def DiagnosticCode.asStr : DiagnosticCode → Str
  | .UnknownDiagram => "E001".toList
  | .PreprocessError => "E002".toList
  | .FrontmatterParseError => "E101".toList
  | .DirectiveParseError => "E102".toList
  | .InvalidDirective => "E103".toList
  | .DirectiveJsonError => "E104".toList
  | .LexerError => "E201".toList
  | .UnterminatedString => "E202".toList
  | .InvalidEscape => "E203".toList
  | .ParserError => "E301".toList
  | .UnexpectedToken => "E302".toList
  | .ExpectedToken => "E303".toList
  | .UnexpectedEof => "E304".toList
  | .InvalidSyntaxCode => "E305".toList
  | .MissingElement => "E306".toList
  | .DuplicateDefinition => "E307".toList
  | .SemanticError => "E401".toList
  | .UndefinedReference => "E402".toList
  | .InvalidValue => "E403".toList
  | .ConstraintViolation => "E404".toList
  | .InvalidDirection => "E501".toList
  | .InvalidNodeShape => "E502".toList
  | .InvalidEdgeType => "E503".toList
  | .SubgraphError => "E504".toList
  | .InvalidArrowType => "E601".toList
  | .InvalidParticipant => "E602".toList
  | .InvalidActivation => "E603".toList
  | .InvalidRelationType => "E701".toList
  | .InvalidVisibility => "E702".toList
  | .InvalidMember => "E703".toList
  | .InvalidStateType => "E801".toList
  | .InvalidTransition => "E802".toList
  | .PacketInvalidBitRange => "E901".toList
  | .PacketNonContiguous => "E902".toList
  | .TreemapInvalidStructure => "E903".toList
  | .GanttInvalidDate => "E904".toList

/-- `src/detector/mod.rs`: the closed enum of diagram types. -/
inductive DiagramType where
  | Error
  | BadFrontmatter
  | Flowchart
  | FlowchartV2
  | FlowchartElk
  | Sequence
  | Class
  | ClassDiagram
  | State
  | StateDiagram
  | Er
  | Gantt
  | Journey
  | Requirement
  | GitGraph
  | XyChart
  | QuadrantChart
  | C4
  | Packet
  | Treemap
  | Sankey
  | Kanban
  | Block
  | Radar
  | Pie
  | Info
  | Timeline
  | Mindmap
  | Architecture
  deriving DecidableEq, Repr

/-- `DiagramType::as_str`. -/
def DiagramType.asStr : DiagramType → Str
  | .Error => "error".toList
  | .BadFrontmatter => "---".toList
  | .Flowchart => "flowchart".toList
  | .FlowchartV2 => "flowchart-v2".toList
  | .FlowchartElk => "flowchart-elk".toList
  | .Sequence => "sequence".toList
  | .Class => "class".toList
  | .ClassDiagram => "classDiagram".toList
  | .State => "state".toList
  | .StateDiagram => "stateDiagram".toList
  | .Er => "er".toList
  | .Gantt => "gantt".toList
  | .Journey => "journey".toList
  | .Requirement => "requirement".toList
  | .GitGraph => "gitGraph".toList
  | .XyChart => "xychart".toList
  | .QuadrantChart => "quadrantChart".toList
  | .C4 => "c4".toList
  | .Packet => "packet".toList
  | .Treemap => "treemap".toList
  | .Sankey => "sankey".toList
  | .Kanban => "kanban".toList
  | .Block => "block".toList
  | .Radar => "radar".toList
  | .Pie => "pie".toList
  | .Info => "info".toList
  | .Timeline => "timeline".toList
  | .Mindmap => "mindmap".toList
  | .Architecture => "architecture".toList

/-- `DiagramType::needs_entity_encoding`. -/
def DiagramType.needsEntityEncoding : DiagramType → Bool
  | .Flowchart | .FlowchartV2 | .FlowchartElk => true
  | _ => false

/-- `src/diagnostic/mod.rs`: a related location attached to a diagnostic. -/
structure RelatedDiagnostic where
  message : Str
  span : Span
  deriving DecidableEq, Repr

/-- `src/diagnostic/mod.rs`: a single diagnostic report. -/
structure Diagnostic where
  code : DiagnosticCode
  message : Str
  severity : Severity
  span : Span
  diagramType : Option DiagramType
  notes : List Str
  related : List RelatedDiagnostic
  deriving DecidableEq, Repr

/-- `Diagnostic::new`. -/
def Diagnostic.new (code : DiagnosticCode) (message : Str) (severity : Severity)
    (span : Span) : Diagnostic :=
  ⟨code, message, severity, span, none, [], []⟩

/-- `Diagnostic::error`. -/
def Diagnostic.error (code : DiagnosticCode) (message : Str) (span : Span) : Diagnostic :=
  Diagnostic.new code message .Error span

/-- `Diagnostic::warning`. -/
def Diagnostic.warning (code : DiagnosticCode) (message : Str) (span : Span) : Diagnostic :=
  Diagnostic.new code message .Warning span

/-- `src/config/mod.rs`: flowchart sub-configuration. -/
structure FlowchartConfig where
  defaultRenderer : Option Str
  deriving DecidableEq, Repr

/-- Class-diagram sub-configuration (the Rust field is named `class`, a
reserved word in Lean, so the structure holds it under `cls`). -/
structure ClassConfig where
  defaultRenderer : Option Str
  deriving DecidableEq, Repr

structure StateConfig where
  defaultRenderer : Option Str
  deriving DecidableEq, Repr

structure GanttConfig where
  displayMode : Option Str
  deriving DecidableEq, Repr

/-- `src/config/mod.rs`: the sparsely populated configuration record. -/
structure MermaidConfig where
  flowchart : FlowchartConfig
  cls : ClassConfig
  state : StateConfig
  gantt : GanttConfig
  wrap : Bool
  layout : Option Str
  deriving DecidableEq, Repr

/-- `MermaidConfig::default`. -/
def MermaidConfig.default : MermaidConfig :=
  ⟨⟨none⟩, ⟨none⟩, ⟨none⟩, ⟨none⟩, false, none⟩

instance : Inhabited MermaidConfig := ⟨MermaidConfig.default⟩

/-- `MermaidConfig::merge`: values from `other` override values in `self`.
The Rust method mutates `self`; here it is the returned record. -/
def MermaidConfig.merge (self other : MermaidConfig) : MermaidConfig :=
  { flowchart := if other.flowchart.defaultRenderer.isSome then other.flowchart else self.flowchart
    cls := if other.cls.defaultRenderer.isSome then other.cls else self.cls
    state := if other.state.defaultRenderer.isSome then other.state else self.state
    gantt := if other.gantt.displayMode.isSome then other.gantt else self.gantt
    wrap := if other.wrap then true else self.wrap
    layout := if other.layout.isSome then other.layout else self.layout }

/-- `src/config/mod.rs`: options for a `parse` call. -/
structure ParseOptions where
  baseConfig : Option MermaidConfig
  suppressErrors : Bool
  deriving DecidableEq, Repr

def ParseOptions.default : ParseOptions := ⟨none, false⟩

/-- `src/ast/common.rs`: kind of an AST node. -/
inductive NodeKind where
  | Root
  | DiagramDeclaration
  | Node
  | Edge
  | Subgraph
  | Style
  | ClassDef
  | Directive
  | Comment
  | Label
  | Identifier
  | Message
  | Participant
  | Activation
  | Note
  | Loop
  | Alt
  | State
  | Transition
  | Class
  | Method
  | Attribute
  | Relationship
  | Statement
  | Other (tag : Str)
  deriving DecidableEq, Repr

/-- `src/ast/common.rs`: the uniform AST node.  The Rust `HashMap` fields
(`fields`, `properties`) are modelled as association lists. -/
inductive AstNode where
  | mk (kind : NodeKind) (span : Span) (text : Option Str)
      (children : List AstNode) (fields : List (Str × AstNode))
      (properties : List (Str × Str))
  deriving Repr

def AstNode.kind : AstNode → NodeKind
  | .mk k _ _ _ _ _ => k

def AstNode.span : AstNode → Span
  | .mk _ s _ _ _ _ => s

def AstNode.text : AstNode → Option Str
  | .mk _ _ t _ _ _ => t

def AstNode.children : AstNode → List AstNode
  | .mk _ _ _ c _ _ => c

def AstNode.fields : AstNode → List (Str × AstNode)
  | .mk _ _ _ _ f _ => f

def AstNode.properties : AstNode → List (Str × Str)
  | .mk _ _ _ _ _ p => p

/-- `AstNode::new`. -/
def AstNode.new (kind : NodeKind) (span : Span) : AstNode :=
  .mk kind span none [] [] []

/-- `AstNode::with_text`. -/
def AstNode.withText (kind : NodeKind) (span : Span) (text : Str) : AstNode :=
  .mk kind span (some text) [] [] []

/-- `AstNode::add_child` (returning the updated node). -/
def AstNode.addChild : AstNode → AstNode → AstNode
  | .mk k s t c f p, child => .mk k s t (c ++ [child]) f p

/-- Association-list insert modelling `HashMap::insert` (replaces an
existing binding, otherwise appends). -/
def assocInsert (l : List (Str × Str)) (key val : Str) : List (Str × Str) :=
  match l with
  | [] => [(key, val)]
  | (k, v) :: rest =>
      if k = key then (k, val) :: rest else (k, v) :: assocInsert rest key val

/-- `AstNode::add_property`. -/
def AstNode.addProperty : AstNode → Str → Str → AstNode
  | .mk k s t c f p, key, val => .mk k s t c f (assocInsert p key val)

/-- `AstNode::get_property`. -/
def AstNode.getProperty (n : AstNode) (key : Str) : Option Str :=
  (n.properties.find? (fun kv => kv.1 = key)).map (·.2)

/-- Update the span of a node (the Rust code assigns `stmt.span = ...`). -/
def AstNode.setSpan : AstNode → Span → AstNode
  | .mk k _ t c f p, s => .mk k s t c f p

/-- `src/ast/common.rs`: the complete AST; it owns the processed source. -/
structure Ast where
  root : AstNode
  source : Str
  deriving Repr

/-- `Ast::new`. -/
def Ast.new (root : AstNode) (source : Str) : Ast := ⟨root, source⟩

/-- `src/lib.rs`: the public result of `parse`. -/
structure ParseResult where
  ok : Bool
  diagramType : Option DiagramType
  config : MermaidConfig
  ast : Option Ast
  diagnostics : List Diagnostic
  title : Option Str
  deriving Repr

/-- `ParseResult::success`. -/
def ParseResult.success (diagramType : DiagramType) (config : MermaidConfig)
    (ast : Ast) : ParseResult :=
  ⟨true, some diagramType, config, some ast, [], none⟩

/-- `ParseResult::failure`. -/
def ParseResult.failure (diagnostics : List Diagnostic) : ParseResult :=
  ⟨false, none, MermaidConfig.default, none, diagnostics, none⟩

/-- `ParseResult::failure_single`. -/
def ParseResult.failureSingle (d : Diagnostic) : ParseResult :=
  ParseResult.failure [d]

/-- `ParseResult::with_title`. -/
def ParseResult.withTitle (r : ParseResult) (title : Option Str) : ParseResult :=
  { r with title := title }

/-! ## Preprocessing: `src/preprocess/normalize.rs` -/

/-- The CR/LF normalisation step of `normalize_text`
(`replace("\r\n", "\n").replace('\r', "\n")`, fused into one pass: every
`\r\n` pair and every remaining `\r` becomes `\n`). -/
def replCR : Str → Str
  | [] => []
  | '\r' :: '\n' :: r => '\n' :: replCR r
  | '\r' :: r => '\n' :: replCR r
  | c :: r => c :: replCR r

/-- Leftmost/greedy `replace_all` of `DOUBLE_QUOTE_ATTR_REGEX`
(`="([^"]*)"` is rewritten to `='$1'`) over an attribute string.  Fuelled
(each step consumes at least one character, so `length + 1` fuel suffices;
the wrapper below supplies it). -/
def attrRewriteF : Nat → Str → Str
  | 0, _ => []
  | _ + 1, [] => []
  | fuel + 1, c :: r =>
    if c = '=' then
      match r with
      | [] => ['=']
      | c2 :: r2 =>
        if c2 = quoteC then
          match r2.dropWhile (fun x => x ≠ quoteC) with
          | [] => '=' :: attrRewriteF fuel (c2 :: r2)
          | _ :: rest =>
              '=' :: aposC :: (r2.takeWhile (fun x => x ≠ quoteC) ++ aposC :: attrRewriteF fuel rest)
        else '=' :: attrRewriteF fuel (c2 :: r2)
    else c :: attrRewriteF fuel r

def attrRewrite (s : Str) : Str := attrRewriteF (s.length + 1) s

/-- Leftmost/greedy `replace_all` of `HTML_TAG_REGEX` (`<(\w+)([^>]*)>`),
rewriting the attribute part of each matched tag with `attrRewrite`.
Together with `replCR` this is `normalize_text`.  Fuelled like
`attrRewriteF`. -/
def fixTagsF : Nat → Str → Str
  | 0, _ => []
  | _ + 1, [] => []
  | fuel + 1, c :: r =>
    if c = '<' then
      let w := r.takeWhile isWordChar
      if w = [] then '<' :: fixTagsF fuel r
      else
        match (r.drop w.length).dropWhile (fun x => x ≠ '>') with
        | [] => '<' :: fixTagsF fuel r
        | _ :: rest =>
            '<' :: (w ++ attrRewrite ((r.drop w.length).takeWhile (fun x => x ≠ '>')))
              ++ '>' :: fixTagsF fuel rest
    else c :: fixTagsF fuel r

def fixTags (s : Str) : Str := fixTagsF (s.length + 1) s

/-- `normalize_text` from `src/preprocess/normalize.rs`. -/
def normalizeText (s : Str) : Str := fixTags (replCR s)

/-- Try `f` on `n, n-1, ..., 0`, returning the first success: the model of
greedy (longest-preferred) backtracking for a `*` quantifier. -/
def downTry (f : Nat → Option Nat) : Nat → Option Nat
  | 0 => f 0
  | n + 1 =>
    match f (n + 1) with
    | some v => some v
    | none => downTry f n

/-- Match length, at the head of `s`, of the regex `kw[^;]*:\S*#[^;]*;`
(with `kw` one of `style`/`classDef`), with the leftmost/greedy semantics
of the `regex` crate. -/
def matchStyleLike (kw : Str) (s : Str) : Option Nat :=
  if kw.isPrefixOf s then
    let rest := s.drop kw.length
    downTry (fun a =>
      if rest.get? a = some ':' then
        let rest2 := rest.drop (a + 1)
        downTry (fun b =>
          if rest2.get? b = some '#' then
            let rest3 := rest2.drop (b + 1)
            let cmax := (rest3.takeWhile (fun c => c ≠ ';')).length
            if rest3.get? cmax = some ';' then
              some (kw.length + a + 1 + b + 1 + cmax + 1)
            else none
          else none)
          (rest2.takeWhile (fun c => !(isWs c))).length
      else none)
      (rest.takeWhile (fun c => c ≠ ';')).length
  else none

/-- `replace_all` driver for the style/classDef passes of `encode_entities`:
each match is replaced by itself minus the trailing semicolon.  Fuelled; the
wrapper passes more fuel than the number of scan steps. -/
def stylePassAux (kw : Str) : Nat → Str → Str
  | 0, _ => []
  | _, [] => []
  | fuel + 1, c :: r =>
    match matchStyleLike kw (c :: r) with
    | some len => (c :: r).take (len - 1) ++ stylePassAux kw fuel ((c :: r).drop len)
    | none => c :: stylePassAux kw fuel r

def stylePass (s : Str) : Str := stylePassAux "style".toList (s.length + 1) s

def classdefPass (s : Str) : Str := stylePassAux "classDef".toList (s.length + 1) s

/-- The `#(\w+);` entity-encoding pass of `encode_entities`: numeric
entities become `ﬂ°°…¶ß`, named entities `ﬂ°…¶ß`. -/
def entityPassAux : Nat → Str → Str
  | 0, _ => []
  | _, [] => []
  | fuel + 1, c :: r =>
    if c = '#' then
      let w := r.takeWhile isWordChar
      if w ≠ [] ∧ r.get? w.length = some ';' then
        (if w.all isDigitC then "ﬂ°°".toList else "ﬂ°".toList) ++ w ++ "¶ß".toList
          ++ entityPassAux fuel (r.drop (w.length + 1))
      else c :: entityPassAux fuel r
    else c :: entityPassAux fuel r

/-- `encode_entities` from `src/preprocess/normalize.rs`. -/
def encodeEntities (s : Str) : Str :=
  entityPassAux ((classdefPass (stylePass s)).length + 1) (classdefPass (stylePass s))

/-! ## Preprocessing: `src/preprocess/comments.rs` -/

/-- Strip one trailing `'\r'` (Rust `strip_suffix('\r')` inside `lines`). -/
def stripCrEnd (p : Str) : Str :=
  match p.getLast? with
  | some c => if c = '\r' then p.dropLast else p
  | none => p

/-- Model of Rust `str::lines`: split at `'\n'`, dropping one `'\r'` before
each split point; the final line ending is optional; the empty string has
no lines.  Fuelled like `attrRewriteF`. -/
def rustLinesF : Nat → Str → List Str
  | 0, _ => []
  | _ + 1, [] => []
  | fuel + 1, c :: r =>
    match (c :: r).dropWhile (fun x => x ≠ '\n') with
    | [] => [c :: r]
    | _ :: rest => stripCrEnd ((c :: r).takeWhile (fun x => x ≠ '\n')) :: rustLinesF fuel rest

def rustLines (s : Str) : List Str := rustLinesF (s.length + 1) s

/-- A comment line: first non-whitespace characters are `%%` but not `%%{`. -/
def isCommentLine (l : Str) : Bool :=
  let t := trimStart l
  ("%%".toList.isPrefixOf t) && !(("%%".toList ++ [lbraceC]).isPrefixOf t)

/-- Join lines with single `'\n'` separators (the accumulation loop of
`remove_comments`). -/
def joinNl : List Str → Str
  | [] => []
  | [l] => l
  | l :: rest => l ++ '\n' :: joinNl rest

/-- `remove_comments` from `src/preprocess/comments.rs`. -/
def removeComments (s : Str) : Str :=
  let kept := (rustLines s).filter (fun l => !(isCommentLine l))
  let res := joinNl kept
  if s.getLast? = some '\n' ∧ res ≠ [] then res ++ ['\n'] else res

/-! ## Preprocessing: `src/preprocess/directive.rs` -/

/-- First index at which `pat` occurs in `s` (Rust `str::find` with a
string pattern). -/
def subIndexOf (pat : Str) : Str → Option Nat
  | [] => if pat.isPrefixOf ([] : Str) then some 0 else none
  | c :: r =>
    if pat.isPrefixOf (c :: r) then some 0
    else (subIndexOf pat r).map (· + 1)

/-- `find_directive_spans`: scan for `%%{ … }%%` spans, returning
`(start, end, content)` triples with absolute positions. -/
def findSpansAux : Nat → Str → Nat → List (Nat × Nat × Str)
  | 0, _, _ => []
  | fuel + 1, s, pos =>
    match subIndexOf ("%%".toList ++ [lbraceC]) s with
    | none => []
    | some i =>
      let s2 := s.drop i
      match subIndexOf (rbraceC :: "%%".toList) s2 with
      | some j =>
          (pos + i, pos + i + j + 3, (s2.drop 3).take (j - 3))
            :: findSpansAux fuel (s2.drop (j + 3)) (pos + i + j + 3)
      | none => findSpansAux fuel (s2.drop 3) (pos + i + 3)

def findDirectiveSpans (s : Str) : List (Nat × Nat × Str) :=
  findSpansAux (s.length + 1) s 0

/-- Delete the given spans from `s`, rightmost first (the Rust code removes
`replace_range(start..end, "")` iterating in reverse). -/
def removeSpans (s : Str) (spans : List (Nat × Nat × Str)) : Str :=
  spans.foldr (fun sp acc => acc.take sp.1 ++ acc.drop sp.2.1) s

/-! ### Model of `serde_json` on the directive payloads -/

/-- JSON values, the model of `serde_json::Value` on the sub-language used
by `init` directives (objects of strings/booleans/numbers). -/
inductive Json where
  | null
  | bool (b : Bool)
  | num (raw : Str)
  | str (s : Str)
  | arr (xs : List Json)
  | obj (kvs : List (Str × Json))
  deriving Repr

/-- Read a JSON string literal body after the opening quote; returns the
decoded content and the remainder after the closing quote. -/
def jsonStringLit : Nat → Str → Option (Str × Str)
  | 0, _ => none
  | _, [] => none
  | fuel + 1, c :: r =>
    if c = quoteC then some ([], r)
    else if c = '\\' then
      match r with
      | [] => none
      | e :: r2 =>
        let dec := if e = 'n' then '\n' else if e = 't' then '\t' else e
        (jsonStringLit fuel r2).map (fun p => (dec :: p.1, p.2))
    else (jsonStringLit fuel r).map (fun p => (c :: p.1, p.2))

mutual

/-- Recursive-descent JSON value reader (fuelled model of `serde_json`
parsing on the subset used by the linter's directives). -/
def parseJsonVal : Nat → Str → Option (Json × Str)
  | 0, _ => none
  | fuel + 1, s0 =>
    let s := trimStart s0
    match s with
    | [] => none
    | c :: r =>
      if c = lbraceC then
        let r' := trimStart r
        if r'.head? = some rbraceC then some (.obj [], r'.tail)
        else (parseJsonMembers fuel r').map (fun p => (.obj p.1, p.2))
      else if c = lbrackC then
        let r' := trimStart r
        if r'.head? = some rbrackC then some (.arr [], r'.tail)
        else (parseJsonElems fuel r').map (fun p => (.arr p.1, p.2))
      else if c = quoteC then
        (jsonStringLit (r.length + 1) r).map (fun p => (.str p.1, p.2))
      else if "true".toList.isPrefixOf s then some (.bool true, s.drop 4)
      else if "false".toList.isPrefixOf s then some (.bool false, s.drop 5)
      else if "null".toList.isPrefixOf s then some (.null, s.drop 4)
      else
        let numrun := s.takeWhile (fun x =>
          isDigitC x || x = '-' || x = '+' || x = '.' || x = 'e' || x = 'E')
        if numrun ≠ [] then some (.num numrun, s.drop numrun.length) else none

def parseJsonMembers : Nat → Str → Option (List (Str × Json) × Str)
  | 0, _ => none
  | fuel + 1, s0 =>
    let s := trimStart s0
    match s with
    | [] => none
    | c :: r =>
      if c = quoteC then
        match jsonStringLit (r.length + 1) r with
        | none => none
        | some (key, rest) =>
          match trimStart rest with
          | ':' :: rest2 =>
            match parseJsonVal fuel rest2 with
            | none => none
            | some (v, rest3) =>
              match trimStart rest3 with
              | ',' :: rest4 =>
                  (parseJsonMembers fuel rest4).map (fun p => ((key, v) :: p.1, p.2))
              | c2 :: rest4 =>
                  if c2 = rbraceC then some ([(key, v)], rest4) else none
              | [] => none
          | _ => none
      else none

def parseJsonElems : Nat → Str → Option (List Json × Str)
  | 0, _ => none
  | fuel + 1, s =>
    match parseJsonVal fuel s with
    | none => none
    | some (v, rest) =>
      match trimStart rest with
      | ',' :: rest2 => (parseJsonElems fuel rest2).map (fun p => (v :: p.1, p.2))
      | c :: rest2 => if c = rbrackC then some ([v], rest2) else none
      | [] => none

end

def parseJson (s : Str) : Option Json :=
  match parseJsonVal (s.length + 1) s with
  | some (v, rest) => if trimStart rest = [] then some v else none
  | none => none

/-! ### Configuration deserialization (model of serde `Deserialize` for
`MermaidConfig`, camelCase field names, unknown fields ignored) -/

def jLookup (kvs : List (Str × Json)) (k : String) : Option Json :=
  (kvs.find? (fun kv => kv.1 = k.toList)).map (·.2)

/-- Deserialize a renderer sub-record (`FlowchartConfig` etc.) from an
optional JSON value: absent field means default, a non-object value is a
deserialization error. -/
def rendererFromJson : Option Json → Option (Option Str)
  | none => some none
  | some (.obj kvs) =>
    match jLookup kvs "defaultRenderer" with
    | none => some none
    | some (.str s) => some (some s)
    | some .null => some none
    | some _ => none
  | some _ => none

def displayModeFromJson : Option Json → Option (Option Str)
  | none => some none
  | some (.obj kvs) =>
    match jLookup kvs "displayMode" with
    | none => some none
    | some (.str s) => some (some s)
    | some .null => some none
    | some _ => none
  | some _ => none

def configFromJson : Json → Option MermaidConfig
  | .obj kvs => do
    let fc ← rendererFromJson (jLookup kvs "flowchart")
    let cc ← rendererFromJson (jLookup kvs "class")
    let sc ← rendererFromJson (jLookup kvs "state")
    let gc ← displayModeFromJson (jLookup kvs "gantt")
    let w ← match jLookup kvs "wrap" with
      | none => some false
      | some (.bool b) => some b
      | some _ => none
    let lay ← match jLookup kvs "layout" with
      | none => some none
      | some (.str s) => some (some s)
      | some .null => some none
      | some _ => none
    some ⟨⟨fc⟩, ⟨cc⟩, ⟨sc⟩, ⟨gc⟩, w, lay⟩
  | _ => none

/-- `DirectiveType::from_str`. -/
inductive DirectiveType where
  | Init
  | Wrap
  | Unknown (s : Str)
  deriving Repr

def DirectiveType.fromStr (s : Str) : DirectiveType :=
  let l := lowerStr s
  if l = "init".toList ∨ l = "initialize".toList then .Init
  else if l = "wrap".toList then .Wrap
  else .Unknown s

/-- A parsed directive. -/
structure Directive where
  directiveType : DirectiveType
  args : Option Json

/-- `parse_directive_content`: model of the regex
`^\s*(\w+)\s*(?::\s*(.*))?$` (where `.` does not cross a newline and `$` is
end of haystack), followed by the JSON attempt on the trimmed payload. -/
def parseDirectiveContent (content : Str) : Option Directive :=
  let c1 := trimStart content
  let word := c1.takeWhile isWordChar
  if word = [] then none
  else
    match trimStart (c1.drop word.length) with
    | [] => some ⟨DirectiveType.fromStr word, none⟩
    | c :: r =>
      if c = ':' then
        let g2 := trimStart r
        if g2.contains '\n' then none
        else
          let argsStr := trimStr g2
          if argsStr = [] then some ⟨DirectiveType.fromStr word, none⟩
          else some ⟨DirectiveType.fromStr word, parseJson argsStr⟩
      else none

/-- Result of `extract_directives`. -/
structure DirectiveResult where
  text : Str
  config : MermaidConfig
  wrap : Bool

/-- `extract_directives` from `src/preprocess/directive.rs`. -/
def extractDirectives (text : Str) : DirectiveResult :=
  let spans := findDirectiveSpans text
  let cfgs := spans.foldl (fun acc sp =>
    match parseDirectiveContent sp.2.2 with
    | some d =>
      match d.directiveType, d.args with
      | .Init, some (.obj kvs) =>
        match configFromJson (.obj kvs) with
        | some cfg => acc ++ [cfg]
        | none => acc
      | _, _ => acc
    | none => acc) []
  let wrapFlag := spans.any (fun sp =>
    match parseDirectiveContent sp.2.2 with
    | some d =>
      match d.directiveType with
      | .Wrap => true
      | _ => false
    | none => false)
  let config := cfgs.foldl MermaidConfig.merge MermaidConfig.default
  ⟨removeSpans text spans, config, wrapFlag⟩

/-! ## Preprocessing: `src/preprocess/frontmatter.rs` -/

/-- Model of `serde_yaml::Value` on the block-mapping sub-language used by
frontmatter (plain scalars are modelled as strings). -/
inductive Yaml where
  | null
  | str (s : Str)
  | map (kvs : List (Str × Yaml))
  deriving Repr

def lineIndentOf (l : Str) : Nat := (l.takeWhile (fun c => c = ' ')).length

def isBlankLine (l : Str) : Bool := l.all isWs

/-- Plain split on `'\n'` (no `\r` handling; frontmatter is parsed after
normalisation). -/
def splitOnNl : Str → List Str
  | [] => [[]]
  | c :: r =>
    if c = '\n' then [] :: splitOnNl r
    else
      match splitOnNl r with
      | [] => [[c]]
      | p :: ps => (c :: p) :: ps

def splitAtColon : Str → Option (Str × Str)
  | [] => none
  | c :: r =>
    if c = ':' then some ([], r)
    else (splitAtColon r).map (fun p => (c :: p.1, p.2))

mutual

/-- Fuelled block-YAML reader: a block is either empty (null), one plain
scalar line, or an indentation-structured mapping.  This is the model of
`serde_yaml::from_str` on the frontmatter sub-language; inputs outside the
sub-language yield `none` (a parse error). -/
def parseYamlBlock : Nat → List Str → Option Yaml
  | 0, _ => none
  | fuel + 1, ls =>
    match ls with
    | [] => some .null
    | l :: rest =>
      if rest = [] ∧ ¬ (l.contains ':') then some (.str (trimStr l))
      else (parseYamlEntries fuel ls (lineIndentOf l)).map .map

def parseYamlEntries : Nat → List Str → Nat → Option (List (Str × Yaml))
  | 0, _, _ => none
  | _ + 1, [], _ => some []
  | fuel + 1, l :: rest, ind =>
    if lineIndentOf l ≠ ind then none
    else
      match splitAtColon l with
      | none => none
      | some (k0, v0) =>
        let key := trimStr k0
        if key = [] then none
        else
          let sub := rest.takeWhile (fun l2 => ind < lineIndentOf l2)
          let rest2 := rest.drop sub.length
          let val0 := trimStr v0
          if val0 ≠ [] then
            if sub ≠ [] then none
            else (parseYamlEntries fuel rest2 ind).map (fun es => (key, .str val0) :: es)
          else
            match sub with
            | [] => (parseYamlEntries fuel rest2 ind).map (fun es => (key, .null) :: es)
            | _ =>
              match parseYamlBlock fuel sub with
              | none => none
              | some v => (parseYamlEntries fuel rest2 ind).map (fun es => (key, v) :: es)

end

def parseYaml (s : Str) : Option Yaml :=
  let ls := (splitOnNl s).filter (fun l => !(isBlankLine l))
  parseYamlBlock (2 * ls.length + 2) ls

def yLookup (kvs : List (Str × Yaml)) (k : String) : Option Yaml :=
  (kvs.find? (fun kv => kv.1 = k.toList)).map (·.2)

/-- Deserialize a renderer sub-record from an optional YAML value. -/
def rendererFromYaml : Option Yaml → Option (Option Str)
  | none => some none
  | some (.map kvs) =>
    match yLookup kvs "defaultRenderer" with
    | none => some none
    | some (.str s) => some (some s)
    | some .null => some none
    | some _ => none
  | some _ => none

def displayModeFromYaml : Option Yaml → Option (Option Str)
  | none => some none
  | some (.map kvs) =>
    match yLookup kvs "displayMode" with
    | none => some none
    | some (.str s) => some (some s)
    | some .null => some none
    | some _ => none
  | some _ => none

/-- Model of `serde_yaml::from_value::<MermaidConfig>` (camelCase fields,
unknown fields ignored, scalars modelled as strings). -/
def configFromYaml : Yaml → Option MermaidConfig
  | .map kvs => do
    let fc ← rendererFromYaml (yLookup kvs "flowchart")
    let cc ← rendererFromYaml (yLookup kvs "class")
    let sc ← rendererFromYaml (yLookup kvs "state")
    let gc ← displayModeFromYaml (yLookup kvs "gantt")
    let w ← match yLookup kvs "wrap" with
      | none => some false
      | some (.str s) =>
          if s = "true".toList then some true
          else if s = "false".toList then some false
          else none
      | some _ => none
    let lay ← match yLookup kvs "layout" with
      | none => some none
      | some (.str s) => some (some s)
      | some .null => some none
      | some _ => none
    some ⟨⟨fc⟩, ⟨cc⟩, ⟨sc⟩, ⟨gc⟩, w, lay⟩
  | _ => none

/-- Descending list of positions of newline characters (`[\n\r]`) inside a
whitespace run (the candidate backtracking positions of a greedy `\s*`
followed by `[\n\r]`). -/
def nlIdxsDesc (w : Str) : List Nat :=
  ((List.range w.length).filter
    (fun i => w.get? i = some '\n' ∨ w.get? i = some '\r')).reverse

def firstSome (f : α → Option β) : List α → Option β
  | [] => none
  | a :: rest =>
    match f a with
    | some b => some b
    | none => firstSome f rest

/-- Consumed length of the closing-delimiter tail `-{3}\s*[\n\r]+` of
`FRONTMATTER_REGEX` at the head of `t`, with greedy backtracking. -/
def closeTailLen (t : Str) : Option Nat :=
  if "---".toList.isPrefixOf t then
    let t2 := t.drop 3
    let w2 := t2.takeWhile (fun c => isWs c)
    match (nlIdxsDesc w2).head? with
    | none => none
    | some j =>
      let run := ((t2.drop j).takeWhile (fun c => c = '\n' ∨ c = '\r')).length
      some (3 + j + run)
  else none

/-- Lazy search for the closing delimiter: the smallest split point at a
newline character followed by the closing tail; returns the relative
position of the newline and the consumed tail length. -/
def fmCloseSearch : Str → Option (Nat × Nat)
  | [] => none
  | c :: r =>
    if c = '\n' ∨ c = '\r' then
      match closeTailLen r with
      | some m => some (0, m)
      | none => (fmCloseSearch r).map (fun p => (p.1 + 1, p.2))
    else (fmCloseSearch r).map (fun p => (p.1 + 1, p.2))

/-- Model of `FRONTMATTER_REGEX`
(`^-{3}\s*[\n\r]([\s\S]*?)[\n\r]-{3}\s*[\n\r]+`): on success returns the
captured group and the end position of the full match. -/
def frontmatterCapture (s : Str) : Option (Str × Nat) :=
  if "---".toList.isPrefixOf s then
    let t := s.drop 3
    let w := t.takeWhile (fun c => isWs c)
    firstSome (fun k =>
      (fmCloseSearch (t.drop (k + 1))).map
        (fun p => ((t.drop (k + 1)).take p.1, 3 + k + 1 + p.1 + 1 + p.2)))
      (nlIdxsDesc w)
  else none

/-- Result of `extract_frontmatter`. -/
structure FrontmatterResult where
  text : Str
  title : Option Str
  displayMode : Option Str
  config : MermaidConfig
  deriving Repr

/-- `extract_frontmatter` from `src/preprocess/frontmatter.rs`. -/
def extractFrontmatter (text : Str) : FrontmatterResult :=
  match frontmatterCapture text with
  | none => ⟨text, none, none, MermaidConfig.default⟩
  | some (yamlContent, matchEnd) =>
    match parseYaml yamlContent with
    | none => ⟨text, none, none, MermaidConfig.default⟩
    | some v =>
      match v with
      | .map kvs =>
        let title := match yLookup kvs "title" with
          | some (.str t) => some t
          | _ => none
        let displayMode := match yLookup kvs "displayMode" with
          | some (.str t) => some t
          | some _ => some []
          | none => none
        let config := match yLookup kvs "config" with
          | some cv => (configFromYaml cv).getD MermaidConfig.default
          | none => MermaidConfig.default
        ⟨text.drop matchEnd, title, displayMode, config⟩
      | _ => ⟨text.drop matchEnd, none, none, MermaidConfig.default⟩

/-! ## Preprocessing: `src/preprocess/preprocessor.rs` -/

/-- Result of preprocessing. -/
structure PreprocessResult where
  code : Str
  title : Option Str
  config : MermaidConfig
  deriving Repr

/-- `Preprocessor::preprocess`.  The Rust signature returns
`Result<_, PreprocessError>` but no code path produces the `Err` variant,
so the model is total. -/
def preprocess (text : Str) : PreprocessResult :=
  let normalized := normalizeText text
  let fm := extractFrontmatter normalized
  let config0 := fm.config
  let config1 := match fm.displayMode with
    | some dm => { config0 with gantt := ⟨some dm⟩ }
    | none => config0
  let dr := extractDirectives fm.text
  let config2 := config1.merge dr.config
  let config3 := if dr.wrap then { config2 with wrap := true } else config2
  ⟨removeComments dr.text, fm.title, config3⟩

/-! ## Classifier: `src/detector/detectors.rs` -/

/-- Model of an `is_match` of `(?i)^\s*kw\b`: skip whitespace, match the
literal keyword case-insensitively, require a word boundary. -/
def kwBoundaryMatch (kw : Str) (text : Str) : Bool :=
  let t := trimStart text
  isPrefixOfCI kw t &&
    (match (t.drop kw.length).head? with
     | none => true
     | some c => !(isWordChar c))

/-- A regex of the shape `(?i)^\s*(alt1|alt2|…)\b` holds iff some
alternative matches with a boundary. -/
def reAny (alts : List String) (text : Str) : Bool :=
  alts.any (fun kw => kwBoundaryMatch kw.toList text)

/-- `detect_type` from `src/detector/detectors.rs`. -/
def detectType (text0 : Str) (config : MermaidConfig) : Option DiagramType :=
  let text := trimStr text0
  if lowerStr text = "error".toList then some .Error
  else if "---".toList.isPrefixOf (trimStart text) then some .BadFrontmatter
  else if reAny ["flowchart-elk"] text then some .FlowchartElk
  else if reAny ["mindmap"] text then some .Mindmap
  else if reAny ["architecture-beta", "architecture"] text then some .Architecture
  else if reAny ["C4Context", "C4Container", "C4Component", "C4Dynamic", "C4Deployment"] text then
    some .C4
  else if reAny ["kanban"] text then some .Kanban
  else if reAny ["classDiagram-v2"] text then some .ClassDiagram
  else if reAny ["classDiagram"] text then
    (if config.cls.defaultRenderer = some "dagre-wrapper".toList then some .ClassDiagram
     else some .Class)
  else if reAny ["erDiagram"] text then some .Er
  else if reAny ["gantt"] text then some .Gantt
  else if reAny ["info"] text then some .Info
  else if reAny ["pie"] text then some .Pie
  else if reAny ["requirementDiagram", "requirement"] text then some .Requirement
  else if reAny ["sequenceDiagram"] text then some .Sequence
  else if reAny ["flowchart"] text then
    (if config.flowchart.defaultRenderer = some "elk".toList
        ∨ config.layout = some "elk".toList then some .FlowchartElk
     else some .FlowchartV2)
  else if reAny ["graph"] text then
    (if config.flowchart.defaultRenderer = some "elk".toList then some .FlowchartElk
     else if config.flowchart.defaultRenderer = some "dagre-wrapper".toList then some .FlowchartV2
     else some .Flowchart)
  else if reAny ["timeline"] text then some .Timeline
  else if reAny ["gitGraph"] text then some .GitGraph
  else if reAny ["stateDiagram-v2"] text then some .StateDiagram
  else if reAny ["stateDiagram"] text then
    (if config.state.defaultRenderer = some "dagre-wrapper".toList then some .StateDiagram
     else some .State)
  else if reAny ["journey"] text then some .Journey
  else if reAny ["quadrantChart"] text then some .QuadrantChart
  else if reAny ["sankey-beta", "sankey"] text then some .Sankey
  else if reAny ["packet-beta", "packet"] text then some .Packet
  else if reAny ["xychart-beta", "xychart"] text then some .XyChart
  else if reAny ["block-beta", "block"] text then some .Block
  else if reAny ["radar-beta", "radar"] text then some .Radar
  else if reAny ["treemap"] text then some .Treemap
  else none

/-! ## Flowchart lexer: `src/diagrams/flowchart/lexer.rs` (a `logos` lexer,
modelled as a maximal-munch tokenizer: at each position the longest match
wins, with the `logos` priorities breaking length ties) -/

inductive FlowToken where
  | Graph | Flowchart | Subgraph | End | Direction | Style | ClassDef | Class
  | Click | LinkStyle
  | DirectionValue
  | Arrow | Line | DottedLine | DottedArrow | ThickArrow | ThickLine | Invisible
  | DoubleDash | DashDot | DoubleEqual
  | LBracket | RBracket | LParen | RParen | LBrace | RBrace
  | LDoubleParen | RDoubleParen | LParenBracket | RBracketParen
  | LDoubleBracket | RDoubleBracket | LBracketParen | RParenBracket
  | LDoubleBrace | RDoubleBrace | LSlashBracket | RSlashBracket
  | LBackslashBracket | RBackslashBracket | GreaterThan
  | Pipe | Colon | Semicolon | Comma | Ampersand | Newline
  | DoubleQuotedString | SingleQuotedString | BacktickString
  | Identifier | Number | Text
  deriving DecidableEq, Repr

/-- Rust `Debug` spelling of a token kind (used in `Expected {:?}`
diagnostics). -/
def flowTokenName : FlowToken → Str
  | .Graph => "Graph".toList
  | .Flowchart => "Flowchart".toList
  | .Subgraph => "Subgraph".toList
  | .End => "End".toList
  | .Direction => "Direction".toList
  | .Style => "Style".toList
  | .ClassDef => "ClassDef".toList
  | .Class => "Class".toList
  | .Click => "Click".toList
  | .LinkStyle => "LinkStyle".toList
  | .DirectionValue => "DirectionValue".toList
  | .Arrow => "Arrow".toList
  | .Line => "Line".toList
  | .DottedLine => "DottedLine".toList
  | .DottedArrow => "DottedArrow".toList
  | .ThickArrow => "ThickArrow".toList
  | .ThickLine => "ThickLine".toList
  | .Invisible => "Invisible".toList
  | .DoubleDash => "DoubleDash".toList
  | .DashDot => "DashDot".toList
  | .DoubleEqual => "DoubleEqual".toList
  | .LBracket => "LBracket".toList
  | .RBracket => "RBracket".toList
  | .LParen => "LParen".toList
  | .RParen => "RParen".toList
  | .LBrace => "LBrace".toList
  | .RBrace => "RBrace".toList
  | .LDoubleParen => "LDoubleParen".toList
  | .RDoubleParen => "RDoubleParen".toList
  | .LParenBracket => "LParenBracket".toList
  | .RBracketParen => "RBracketParen".toList
  | .LDoubleBracket => "LDoubleBracket".toList
  | .RDoubleBracket => "RDoubleBracket".toList
  | .LBracketParen => "LBracketParen".toList
  | .RParenBracket => "RParenBracket".toList
  | .LDoubleBrace => "LDoubleBrace".toList
  | .RDoubleBrace => "RDoubleBrace".toList
  | .LSlashBracket => "LSlashBracket".toList
  | .RSlashBracket => "RSlashBracket".toList
  | .LBackslashBracket => "LBackslashBracket".toList
  | .RBackslashBracket => "RBackslashBracket".toList
  | .GreaterThan => "GreaterThan".toList
  | .Pipe => "Pipe".toList
  | .Colon => "Colon".toList
  | .Semicolon => "Semicolon".toList
  | .Comma => "Comma".toList
  | .Ampersand => "Ampersand".toList
  | .Newline => "Newline".toList
  | .DoubleQuotedString => "DoubleQuotedString".toList
  | .SingleQuotedString => "SingleQuotedString".toList
  | .BacktickString => "BacktickString".toList
  | .Identifier => "Identifier".toList
  | .Number => "Number".toList
  | .Text => "Text".toList

/-- A positioned token (`PositionedToken`). -/
structure PositionedToken where
  kind : FlowToken
  span : Span
  text : Str
  deriving Repr

def isIdentStartC (c : Char) : Bool :=
  ('a' ≤ c && c ≤ 'z') || ('A' ≤ c && c ≤ 'Z') || c = '_'

/-- Characters excluded from the low-priority `Text` token class. -/
def isTextC (c : Char) : Bool :=
  !(c = lbraceC || c = rbraceC || c = '[' || c = ']' || c = '(' || c = ')'
    || c = '<' || c = '>' || c = '|' || c = ':' || c = ';' || c = '\n'
    || c = '-' || c = '=' || c = '~' || c = '&' || c = ',' || c = '/'
    || c = '\\' || c = quoteC || c = aposC || c = backtickC || c = ' ' || c = '\t')

/-- Consumed length (body plus closing quote) of a quoted-string token body
`([^q\\]|\\.)*q`; `\\.` does not cross a newline. -/
def quotedBodyLen (q : Char) (allowEsc : Bool) : Nat → Str → Option Nat
  | 0, _ => none
  | _ + 1, [] => none
  | fuel + 1, c :: r =>
    if c = q then some 1
    else if allowEsc ∧ c = '\\' then
      match r with
      | [] => none
      | e :: r2 =>
        if e = '\n' then none
        else (quotedBodyLen q allowEsc fuel r2).map (· + 2)
    else if allowEsc ∧ c = '\\' then none
    else if ¬ allowEsc ∧ c = '\\' then (quotedBodyLen q allowEsc fuel r).map (· + 1)
    else (quotedBodyLen q allowEsc fuel r).map (· + 1)

def matchQuoted (q : Char) (allowEsc : Bool) (s : Str) : Option Nat :=
  match s with
  | c :: r =>
    if c = q then (quotedBodyLen q allowEsc (r.length + 1) r).map (· + 1) else none
  | [] => none

def matchIdent (s : Str) : Option Nat :=
  match s with
  | c :: r =>
    if isIdentStartC c then some (1 + (r.takeWhile (fun x => isIdentStartC x || isDigitC x)).length)
    else none
  | [] => none

def matchNumber (s : Str) : Option Nat :=
  let d1 := (s.takeWhile isDigitC).length
  if d1 = 0 then none
  else
    match s.drop d1 with
    | '.' :: r2 =>
      let d2 := (r2.takeWhile isDigitC).length
      if d2 = 0 then some d1 else some (d1 + 1 + d2)
    | _ => some d1

def matchTextRun (s : Str) : Option Nat :=
  let n := (s.takeWhile isTextC).length
  if n = 0 then none else some n

def matchExact (w : Str) (s : Str) : Option Nat :=
  if w.isPrefixOf s then some w.length else none

def matchExactCI (w : Str) (s : Str) : Option Nat :=
  if isPrefixOfCI w s then some w.length else none

/-- The case-insensitive keyword tokens (logos `#[token(…, ignore(case))]`). -/
def flowKeywordToks : List (Str × FlowToken) :=
  [("graph".toList, .Graph), ("flowchart".toList, .Flowchart),
   ("subgraph".toList, .Subgraph), ("end".toList, .End),
   ("direction".toList, .Direction), ("style".toList, .Style),
   ("classDef".toList, .ClassDef), ("class".toList, .Class),
   ("click".toList, .Click), ("linkStyle".toList, .LinkStyle)]

/-- The exact operator/delimiter tokens. -/
def flowExactToks : List (Str × FlowToken) :=
  [("-->".toList, .Arrow), ("---".toList, .Line), ("-.-".toList, .DottedLine),
   ("-.->".toList, .DottedArrow), ("==>".toList, .ThickArrow), ("===".toList, .ThickLine),
   ("~~~".toList, .Invisible), ("--".toList, .DoubleDash), ("-.".toList, .DashDot),
   ("==".toList, .DoubleEqual),
   ("[".toList, .LBracket), ("]".toList, .RBracket),
   ("(".toList, .LParen), (")".toList, .RParen),
   ([lbraceC], .LBrace), ([rbraceC], .RBrace),
   ("((".toList, .LDoubleParen), ("))".toList, .RDoubleParen),
   ("([".toList, .LParenBracket), ("])".toList, .RBracketParen),
   ("[[".toList, .LDoubleBracket), ("]]".toList, .RDoubleBracket),
   ("[(".toList, .LBracketParen), (")]".toList, .RParenBracket),
   ([lbraceC, lbraceC], .LDoubleBrace), ([rbraceC, rbraceC], .RDoubleBrace),
   ("[/".toList, .LSlashBracket), ("/]".toList, .RSlashBracket),
   ("[\\".toList, .LBackslashBracket), ("\\]".toList, .RBackslashBracket),
   (">".toList, .GreaterThan), ("|".toList, .Pipe), (":".toList, .Colon),
   (";".toList, .Semicolon), (",".toList, .Comma), ("&".toList, .Ampersand),
   ("\n".toList, .Newline)]

/-- All candidate matches at the head of `s`, as `(token, length, priority)`.
Fixed tokens have the logos default priority (twice their length); the
`DirectionValue` regex has priority 4, `Identifier`/`Number` and the quoted
strings priority 2, and `Text` the explicit priority 1. -/
def flowCandidates (s : Str) : List (FlowToken × Nat × Nat) :=
  (flowKeywordToks.filterMap (fun wt =>
    (matchExactCI wt.1 s).map (fun n => (wt.2, n, 2 * wt.1.length))))
  ++ (flowExactToks.filterMap (fun wt =>
    (matchExact wt.1 s).map (fun n => (wt.2, n, 2 * wt.1.length))))
  ++ (["TB", "TD", "BT", "LR", "RL"].filterMap (fun (w : String) =>
    (matchExactCI w.toList s).map (fun n => (FlowToken.DirectionValue, n, 4))))
  ++ ((matchQuoted quoteC true s).map (fun n => (FlowToken.DoubleQuotedString, n, 2))).toList
  ++ ((matchQuoted aposC true s).map (fun n => (FlowToken.SingleQuotedString, n, 2))).toList
  ++ ((matchQuoted backtickC false s).map (fun n => (FlowToken.BacktickString, n, 2))).toList
  ++ ((matchIdent s).map (fun n => (FlowToken.Identifier, n, 2))).toList
  ++ ((matchNumber s).map (fun n => (FlowToken.Number, n, 2))).toList
  ++ ((matchTextRun s).map (fun n => (FlowToken.Text, n, 1))).toList

/-- Pick the candidate with the longest match, priorities breaking ties. -/
def pickBest : List (FlowToken × Nat × Nat) → Option (FlowToken × Nat × Nat)
  | [] => none
  | c :: rest =>
    match pickBest rest with
    | none => some c
    | some b =>
      if c.2.1 > b.2.1 ∨ (c.2.1 = b.2.1 ∧ c.2.2 > b.2.2) then some c else some b

def bestFlowMatch (s : Str) : Option (FlowToken × Nat) :=
  (pickBest (flowCandidates s)).map (fun c => (c.1, c.2.1))

/-- `tokenize`: the logos scanning loop.  Horizontal whitespace is skipped;
unrecognised characters produce errors that `tokenize` drops. -/
def tokenizeAux : Nat → Str → Nat → List PositionedToken
  | 0, _, _ => []
  | _ + 1, [], _ => []
  | fuel + 1, c :: r, p =>
    if c = ' ' ∨ c = '\t' then tokenizeAux fuel r (p + 1)
    else
      match bestFlowMatch (c :: r) with
      | some (tok, len) =>
        ⟨tok, ⟨p, p + len⟩, (c :: r).take len⟩
          :: tokenizeAux fuel ((c :: r).drop len) (p + len)
      | none => tokenizeAux fuel r (p + 1)

def tokenize (s : Str) : List PositionedToken := tokenizeAux (s.length + 1) s 0

/-! ## Flowchart parser: `src/diagrams/flowchart/parser.rs` -/

/-- `src/diagrams/flowchart/mod.rs`: direction of the flowchart. -/
inductive FlowDirection where
  | TopToBottom
  | BottomToTop
  | LeftToRight
  | RightToLeft
  deriving DecidableEq, Repr

/-- `Direction::from_str`. -/
def FlowDirection.fromStr (s : Str) : Option FlowDirection :=
  let u := upperStr s
  if u = "TB".toList ∨ u = "TD".toList then some .TopToBottom
  else if u = "BT".toList then some .BottomToTop
  else if u = "LR".toList then some .LeftToRight
  else if u = "RL".toList then some .RightToLeft
  else none

/-- Rust `Debug` spelling (used via `format!("{:?}", dir)`). -/
def FlowDirection.debugStr : FlowDirection → Str
  | .TopToBottom => "TopToBottom".toList
  | .BottomToTop => "BottomToTop".toList
  | .LeftToRight => "LeftToRight".toList
  | .RightToLeft => "RightToLeft".toList

/-- `src/diagrams/flowchart/mod.rs`: node shapes. -/
inductive NodeShape where
  | Rectangle | RoundedRect | Stadium | Subroutine | Cylindrical | Circle
  | Asymmetric | Rhombus | Hexagon | Parallelogram | ParallelogramAlt
  | Trapezoid | TrapezoidAlt | DoubleCircle
  deriving DecidableEq, Repr

def NodeShape.debugStr : NodeShape → Str
  | .Rectangle => "Rectangle".toList
  | .RoundedRect => "RoundedRect".toList
  | .Stadium => "Stadium".toList
  | .Subroutine => "Subroutine".toList
  | .Cylindrical => "Cylindrical".toList
  | .Circle => "Circle".toList
  | .Asymmetric => "Asymmetric".toList
  | .Rhombus => "Rhombus".toList
  | .Hexagon => "Hexagon".toList
  | .Parallelogram => "Parallelogram".toList
  | .ParallelogramAlt => "ParallelogramAlt".toList
  | .Trapezoid => "Trapezoid".toList
  | .TrapezoidAlt => "TrapezoidAlt".toList
  | .DoubleCircle => "DoubleCircle".toList

/-- `src/diagrams/flowchart/mod.rs`: link types. -/
inductive LinkType where
  | Arrow | Open | Dotted | DottedArrow | Thick | ThickArrow | Invisible
  deriving DecidableEq, Repr

def LinkType.debugStr : LinkType → Str
  | .Arrow => "Arrow".toList
  | .Open => "Open".toList
  | .Dotted => "Dotted".toList
  | .DottedArrow => "DottedArrow".toList
  | .Thick => "Thick".toList
  | .ThickArrow => "ThickArrow".toList
  | .Invisible => "Invisible".toList

/-- The fixed inputs of `FlowchartParserImpl`: the token slice and the
source length (used for the end-of-input span). -/
structure FPCtx where
  tks : List PositionedToken
  srcLen : Nat

/-- The mutable state of `FlowchartParserImpl`: cursor and diagnostics. -/
structure FPState where
  pos : Nat
  diags : List Diagnostic

def FPCtx.isAtEnd (P : FPCtx) (st : FPState) : Bool :=
  P.tks.length ≤ st.pos

def FPCtx.peek (P : FPCtx) (st : FPState) : Option PositionedToken :=
  P.tks.get? st.pos

def FPCtx.checkTok (P : FPCtx) (st : FPState) (k : FlowToken) : Bool :=
  match P.peek st with
  | some t => t.kind = k
  | none => false

def FPCtx.advanceTok (P : FPCtx) (st : FPState) : Option PositionedToken × FPState :=
  if st.pos < P.tks.length then (P.tks.get? st.pos, { st with pos := st.pos + 1 })
  else (none, st)

def FPCtx.currentSpan (P : FPCtx) (st : FPState) : Span :=
  match P.peek st with
  | some t => t.span
  | none => ⟨P.srcLen, P.srcLen⟩

def FPCtx.previousSpan (P : FPCtx) (st : FPState) : Span :=
  if st.pos > 0 then
    match P.tks.get? (st.pos - 1) with
    | some t => t.span
    | none => ⟨0, 0⟩
  else ⟨0, 0⟩

def FPState.push (st : FPState) (d : Diagnostic) : FPState :=
  { st with diags := st.diags ++ [d] }

def FPCtx.expectTok (P : FPCtx) (st : FPState) (k : FlowToken) : FPState :=
  if P.checkTok st k then (P.advanceTok st).2
  else
    st.push (Diagnostic.error .ExpectedToken ("Expected ".toList ++ flowTokenName k)
      (P.currentSpan st))

/-- `skip_newlines` (newlines and semicolons are both separators). -/
def FPCtx.skipNewlines (P : FPCtx) : Nat → FPState → FPState
  | 0, st => st
  | fuel + 1, st =>
    if P.checkTok st .Newline ∨ P.checkTok st .Semicolon then
      P.skipNewlines fuel (P.advanceTok st).2
    else st

def FPCtx.skipToNewlineLoop (P : FPCtx) : Nat → FPState → FPState
  | 0, st => st
  | fuel + 1, st =>
    if ¬ P.isAtEnd st ∧ ¬ P.checkTok st .Newline then
      P.skipToNewlineLoop fuel (P.advanceTok st).2
    else st

/-- `skip_to_newline`. -/
def FPCtx.skipToNewline (P : FPCtx) (st : FPState) : FPState :=
  let st := P.skipToNewlineLoop (P.tks.length + 1) st
  if P.checkTok st .Newline then (P.advanceTok st).2 else st

def FPCtx.labelContentLoop (P : FPCtx) : Nat → FPState → Str × FPState
  | 0, st => ([], st)
  | fuel + 1, st =>
    if P.isAtEnd st then ([], st)
    else if P.checkTok st .RBracket ∨ P.checkTok st .RParen ∨ P.checkTok st .RBrace
        ∨ P.checkTok st .RDoubleParen ∨ P.checkTok st .RDoubleBracket
        ∨ P.checkTok st .RDoubleBrace ∨ P.checkTok st .RBracketParen
        ∨ P.checkTok st .RParenBracket then ([], st)
    else if P.checkTok st .DoubleQuotedString ∨ P.checkTok st .SingleQuotedString then
      match P.advanceTok st with
      | (some tok, st') =>
        let inner := (tok.text.drop 1).dropLast
        let (rest, st'') := P.labelContentLoop fuel st'
        (inner ++ rest, st'')
      | (none, st') => ([], st')
    else
      match P.advanceTok st with
      | (some tok, st') =>
        let (rest, st'') := P.labelContentLoop fuel st'
        (tok.text ++ rest, st'')
      | (none, st') => ([], st')

/-- `parse_label_content` (the Rust function trims the collected label). -/
def FPCtx.parseLabelContent (P : FPCtx) (st : FPState) : Str × FPState :=
  let (l, st') := P.labelContentLoop (P.tks.length + 1) st
  (trimStr l, st')

def emptyLabelDiag (sp : Span) : Diagnostic :=
  Diagnostic.error .ParserError "Empty node label is not allowed".toList sp

/-- One simple-shape branch of `parse_node_shape_and_label`: consume the
opener, read the label (error at the opener's span if empty), expect the
closers. -/
def FPCtx.shapeCase (P : FPCtx) (closers : List FlowToken) (shape : NodeShape)
    (st : FPState) : (NodeShape × Option Str) × FPState :=
  let sp := P.currentSpan st
  let st := (P.advanceTok st).2
  let (label, st) := P.parseLabelContent st
  let st := if label = [] then st.push (emptyLabelDiag sp) else st
  let st := closers.foldl (fun s k => P.expectTok s k) st
  ((shape, some label), st)

/-- `parse_node_shape_and_label`. -/
def FPCtx.parseNodeShapeAndLabel (P : FPCtx) (st : FPState) :
    (NodeShape × Option Str) × FPState :=
  if P.checkTok st .LDoubleParen then
    let sp := P.currentSpan st
    let st := (P.advanceTok st).2
    if P.checkTok st .LParen then
      let st := (P.advanceTok st).2
      let (label, st) := P.parseLabelContent st
      let st := if label = [] then st.push (emptyLabelDiag sp) else st
      let st := P.expectTok st .RParen
      let st := P.expectTok st .RDoubleParen
      ((.DoubleCircle, some label), st)
    else
      let (label, st) := P.parseLabelContent st
      let st := if label = [] then st.push (emptyLabelDiag sp) else st
      let st := P.expectTok st .RDoubleParen
      ((.Circle, some label), st)
  else if P.checkTok st .LDoubleBracket then P.shapeCase [.RDoubleBracket] .Subroutine st
  else if P.checkTok st .LDoubleBrace then P.shapeCase [.RDoubleBrace] .Hexagon st
  else if P.checkTok st .LParenBracket then P.shapeCase [.RBracketParen] .Stadium st
  else if P.checkTok st .LBracketParen then P.shapeCase [.RParenBracket] .Cylindrical st
  else if P.checkTok st .LBracket then P.shapeCase [.RBracket] .Rectangle st
  else if P.checkTok st .LParen then P.shapeCase [.RParen] .RoundedRect st
  else if P.checkTok st .LBrace then P.shapeCase [.RBrace] .Rhombus st
  else if P.checkTok st .GreaterThan then P.shapeCase [.RBracket] .Asymmetric st
  else ((.Rectangle, none), st)

/-- `parse_node`. -/
def FPCtx.parseNode (P : FPCtx) (st : FPState) : Option AstNode × FPState :=
  let start := (P.currentSpan st).start
  if P.checkTok st .Identifier ∨ P.checkTok st .Number then
    match P.advanceTok st with
    | (some tok, st) =>
      let id := tok.text
      let ((shape, label), st) := P.parseNodeShapeAndLabel st
      let stop := (P.previousSpan st).stop
      let node := AstNode.withText .Node ⟨start, stop⟩ id
      let node := node.addProperty "id".toList id
      let node := node.addProperty "shape".toList shape.debugStr
      let node := match label with
        | some l => node.addProperty "label".toList l
        | none => node
      (some node, st)
    | (none, st) => (none, st)
  else (none, st)

/-- `is_link_start`. -/
def FPCtx.isLinkStart (P : FPCtx) (st : FPState) : Bool :=
  P.checkTok st .Arrow ∨ P.checkTok st .Line ∨ P.checkTok st .DottedLine
    ∨ P.checkTok st .DottedArrow ∨ P.checkTok st .ThickArrow ∨ P.checkTok st .ThickLine
    ∨ P.checkTok st .Invisible ∨ P.checkTok st .DoubleDash ∨ P.checkTok st .DashDot
    ∨ P.checkTok st .DoubleEqual

def FPCtx.edgeLabelLoop (P : FPCtx) : Nat → Str → FPState → Str × FPState
  | 0, label, st => (label, st)
  | fuel + 1, label, st =>
    if ¬ P.isAtEnd st ∧ ¬ P.checkTok st .Arrow ∧ ¬ P.checkTok st .Line
        ∧ ¬ P.checkTok st .Newline ∧ ¬ P.checkTok st .Identifier then
      match P.advanceTok st with
      | (some tok, st') =>
        let label' := if label = [] then tok.text else label ++ ' ' :: tok.text
        P.edgeLabelLoop fuel label' st'
      | (none, st') => (label, st')
    else (label, st)

/-- `parse_edge_label`. -/
def FPCtx.parseEdgeLabel (P : FPCtx) (st : FPState) : Option Str × FPState :=
  let (label, st) := P.edgeLabelLoop (P.tks.length + 1) [] st
  if label = [] then (none, st) else (some (trimStr label), st)

def FPCtx.untilPipeLoop (P : FPCtx) : Nat → Str → FPState → Str × FPState
  | 0, content, st => (content, st)
  | fuel + 1, content, st =>
    if ¬ P.isAtEnd st ∧ ¬ P.checkTok st .Pipe then
      match P.advanceTok st with
      | (some tok, st') => P.untilPipeLoop fuel (content ++ tok.text) st'
      | (none, st') => (content, st')
    else (content, st)

/-- `parse_until_pipe`. -/
def FPCtx.parseUntilPipe (P : FPCtx) (st : FPState) : Str × FPState :=
  let (content, st) := P.untilPipeLoop (P.tks.length + 1) [] st
  (trimStr content, st)

/-- The pipe-delimited-label epilogue of `parse_link` shared by the simple
link kinds. -/
def FPCtx.linkTail (P : FPCtx) (lt : LinkType) (st : FPState) :
    Option (LinkType × Option Str) × FPState :=
  if P.checkTok st .Pipe then
    let st := (P.advanceTok st).2
    let (lbl, st) := P.parseUntilPipe st
    let st := if P.checkTok st .Pipe then (P.advanceTok st).2 else st
    (some (lt, some lbl), st)
  else (some (lt, none), st)

/-- `parse_link`. -/
def FPCtx.parseLink (P : FPCtx) (st : FPState) :
    Option (LinkType × Option Str) × FPState :=
  match P.peek st with
  | none => (none, st)
  | some t =>
    match t.kind with
    | .Arrow => P.linkTail .Arrow (P.advanceTok st).2
    | .Line => P.linkTail .Open (P.advanceTok st).2
    | .DottedLine => P.linkTail .Dotted (P.advanceTok st).2
    | .DottedArrow => P.linkTail .DottedArrow (P.advanceTok st).2
    | .ThickArrow => P.linkTail .ThickArrow (P.advanceTok st).2
    | .ThickLine => P.linkTail .Thick (P.advanceTok st).2
    | .Invisible => P.linkTail .Invisible (P.advanceTok st).2
    | .DoubleDash =>
      let st := (P.advanceTok st).2
      let (label, st) := P.parseEdgeLabel st
      if P.checkTok st .Arrow then (some (.Arrow, label), (P.advanceTok st).2)
      else (some (.Open, label), st)
    | _ => (none, st)

/-- The link-chain loop inside `parse_node_or_link`.  (When the current
token is `DashDot` or `DoubleEqual`, `is_link_start` holds but `parse_link`
consumes nothing and the Rust `while` loop does not terminate; the fuel
bounds the model there, and no theorem below touches such inputs.) -/
def FPCtx.chainLoop (P : FPCtx) (start : Nat) : Nat → AstNode → FPState → AstNode × FPState
  | 0, stmt, st => (stmt, st)
  | fuel + 1, stmt, st =>
    if P.isLinkStart st then
      match P.parseLink st with
      | (some (lt, label), st) =>
        (match P.parseNode st with
         | (some targetNode, st) =>
           let edge := AstNode.new .Edge ⟨start, (P.previousSpan st).stop⟩
           let edge := edge.addProperty "link_type".toList lt.debugStr
           let edge := match label with
             | some l => edge.addProperty "label".toList l
             | none => edge
           let edge := edge.addChild targetNode
           P.chainLoop start fuel (stmt.addChild edge) st
         | (none, st) => P.chainLoop start fuel stmt st)
      | (none, st) => P.chainLoop start fuel stmt st
    else (stmt, st)

/-- `parse_node_or_link`. -/
def FPCtx.parseNodeOrLink (P : FPCtx) (st : FPState) : Option AstNode × FPState :=
  let start := (P.currentSpan st).start
  match P.parseNode st with
  | (none, st) => (none, st)
  | (some firstNode, st) =>
    if P.isLinkStart st then
      let stmt := (AstNode.new .Edge ⟨start, start⟩).addChild firstNode
      let (stmt, st) := P.chainLoop start (P.tks.length + 1) stmt st
      (some (stmt.setSpan ⟨start, (P.previousSpan st).stop⟩), st)
    else (some firstNode, st)

def FPCtx.subgraphIdLoop (P : FPCtx) : Nat → Str → FPState → Str × FPState
  | 0, id, st => (id, st)
  | fuel + 1, id, st =>
    if P.checkTok st .Text ∨ P.checkTok st .Identifier then
      match P.advanceTok st with
      | (some tok, st') =>
        let id' := if id = [] then tok.text else id ++ ' ' :: tok.text
        P.subgraphIdLoop fuel id' st'
      | (none, st') => (id, st')
    else (id, st)

/-- `parse_subgraph`. -/
def FPCtx.parseSubgraph (P : FPCtx) (st : FPState) : Option AstNode × FPState :=
  let start := (P.currentSpan st).start
  let st := (P.advanceTok st).2
  let (id, st) := P.subgraphIdLoop (P.tks.length + 1) [] st
  let (label, st) :=
    if P.checkTok st .LBracket then
      let st := (P.advanceTok st).2
      let (l, st) := P.parseLabelContent st
      let st := P.expectTok st .RBracket
      ((some l : Option Str), st)
    else (none, st)
  let stop := (P.previousSpan st).stop
  let node := AstNode.new .Subgraph ⟨start, stop⟩
  let node := node.addProperty "id".toList (trimStr id)
  let node := match label with
    | some l => node.addProperty "label".toList l
    | none => node
  (some node, st)

/-- `parse_end`. -/
def FPCtx.parseEnd (P : FPCtx) (st : FPState) : Option AstNode × FPState :=
  let start := (P.currentSpan st).start
  let st := (P.advanceTok st).2
  let stop := (P.previousSpan st).stop
  (some (AstNode.new .Statement ⟨start, stop⟩), st)

def joinSep (sep : Char) : List Str → Str
  | [] => []
  | [l] => l
  | l :: rest => l ++ sep :: joinSep sep rest

def FPCtx.restOfLineLoop (P : FPCtx) : Nat → List Str → FPState → List Str × FPState
  | 0, acc, st => (acc, st)
  | fuel + 1, acc, st =>
    if ¬ P.isAtEnd st ∧ ¬ P.checkTok st .Newline then
      match P.advanceTok st with
      | (some tok, st') => P.restOfLineLoop fuel (acc ++ [tok.text]) st'
      | (none, st') => (acc, st')
    else (acc, st)

/-- `parse_style`. -/
def FPCtx.parseStyle (P : FPCtx) (st : FPState) : Option AstNode × FPState :=
  let start := (P.currentSpan st).start
  let st := (P.advanceTok st).2
  if P.checkTok st .Identifier then
    match P.advanceTok st with
    | (some tok, st) =>
      let (styles, st) := P.restOfLineLoop (P.tks.length + 1) [] st
      let stop := (P.previousSpan st).stop
      let node := AstNode.new .Style ⟨start, stop⟩
      let node := node.addProperty "node_id".toList tok.text
      let node := node.addProperty "styles".toList (joinSep ' ' styles)
      (some node, st)
    | (none, st) => (none, st)
  else (none, st)

/-- `parse_classdef`. -/
def FPCtx.parseClassdef (P : FPCtx) (st : FPState) : Option AstNode × FPState :=
  let start := (P.currentSpan st).start
  let st := (P.advanceTok st).2
  if P.checkTok st .Identifier then
    match P.advanceTok st with
    | (some tok, st) =>
      let (styles, st) := P.restOfLineLoop (P.tks.length + 1) [] st
      let stop := (P.previousSpan st).stop
      let node := AstNode.new .ClassDef ⟨start, stop⟩
      let node := node.addProperty "name".toList tok.text
      let node := node.addProperty "styles".toList (joinSep ' ' styles)
      (some node, st)
    | (none, st) => (none, st)
  else (none, st)

def FPCtx.idListLoop (P : FPCtx) : Nat → List Str → FPState → List Str × FPState
  | 0, acc, st => (acc, st)
  | fuel + 1, acc, st =>
    if P.checkTok st .Identifier then
      match P.advanceTok st with
      | (some tok, st') =>
        let st' := if P.checkTok st' .Comma then (P.advanceTok st').2 else st'
        P.idListLoop fuel (acc ++ [tok.text]) st'
      | (none, st') => (acc, st')
    else (acc, st)

/-- `parse_class_assignment`. -/
def FPCtx.parseClassAssignment (P : FPCtx) (st : FPState) : Option AstNode × FPState :=
  let start := (P.currentSpan st).start
  let st := (P.advanceTok st).2
  let (nodeIds, st) := P.idListLoop (P.tks.length + 1) [] st
  let (className, st) :=
    if P.checkTok st .Identifier then
      match P.advanceTok st with
      | (some tok, st') => (tok.text, st')
      | (none, st') => (([] : Str), st')
    else (([] : Str), st)
  let stop := (P.previousSpan st).stop
  let node := AstNode.new .Statement ⟨start, stop⟩
  let node := node.addProperty "type".toList "class_assignment".toList
  let node := node.addProperty "node_ids".toList (joinSep ',' nodeIds)
  let node := node.addProperty "class_name".toList className
  (some node, st)

/-- `parse_direction`. -/
def FPCtx.parseDirectionStmt (P : FPCtx) (st : FPState) : Option AstNode × FPState :=
  let start := (P.currentSpan st).start
  let st := (P.advanceTok st).2
  let (dir, st) :=
    if P.checkTok st .DirectionValue then
      match P.advanceTok st with
      | (some tok, st') => (tok.text, st')
      | (none, st') => (([] : Str), st')
    else (([] : Str), st)
  let stop := (P.previousSpan st).stop
  let node := AstNode.new .Statement ⟨start, stop⟩
  let node := node.addProperty "type".toList "direction".toList
  let node := node.addProperty "direction".toList dir
  (some node, st)

/-- `parse_click`. -/
def FPCtx.parseClick (P : FPCtx) (st : FPState) : Option AstNode × FPState :=
  let start := (P.currentSpan st).start
  let st := (P.advanceTok st).2
  if P.checkTok st .Identifier then
    match P.advanceTok st with
    | (some tok, st) =>
      let (rest, st) := P.restOfLineLoop (P.tks.length + 1) [] st
      let stop := (P.previousSpan st).stop
      let node := AstNode.new .Statement ⟨start, stop⟩
      let node := node.addProperty "type".toList "click".toList
      let node := node.addProperty "node_id".toList tok.text
      let node := node.addProperty "definition".toList (joinSep ' ' rest)
      (some node, st)
    | (none, st) => (none, st)
  else (none, st)

def FPCtx.numIdListLoop (P : FPCtx) : Nat → List Str → FPState → List Str × FPState
  | 0, acc, st => (acc, st)
  | fuel + 1, acc, st =>
    if P.checkTok st .Number ∨ P.checkTok st .Identifier then
      match P.advanceTok st with
      | (some tok, st') =>
        let st' := if P.checkTok st' .Comma then (P.advanceTok st').2 else st'
        P.numIdListLoop fuel (acc ++ [tok.text]) st'
      | (none, st') => (acc, st')
    else (acc, st)

/-- `parse_linkstyle`. -/
def FPCtx.parseLinkstyle (P : FPCtx) (st : FPState) : Option AstNode × FPState :=
  let start := (P.currentSpan st).start
  let st := (P.advanceTok st).2
  let (indices, st) := P.numIdListLoop (P.tks.length + 1) [] st
  let (styles, st) := P.restOfLineLoop (P.tks.length + 1) [] st
  let stop := (P.previousSpan st).stop
  let node := AstNode.new .Statement ⟨start, stop⟩
  let node := node.addProperty "type".toList "linkStyle".toList
  let node := node.addProperty "indices".toList (joinSep ',' indices)
  let node := node.addProperty "styles".toList (joinSep ' ' styles)
  (some node, st)

/-- `parse_statement`. -/
def FPCtx.parseStatement (P : FPCtx) (st : FPState) : Option AstNode × FPState :=
  let st := P.skipNewlines (P.tks.length + 1) st
  if P.isAtEnd st then (none, st)
  else if P.checkTok st .Subgraph then P.parseSubgraph st
  else if P.checkTok st .End then P.parseEnd st
  else if P.checkTok st .Style then P.parseStyle st
  else if P.checkTok st .ClassDef then P.parseClassdef st
  else if P.checkTok st .Class then P.parseClassAssignment st
  else if P.checkTok st .Direction then P.parseDirectionStmt st
  else if P.checkTok st .Click then P.parseClick st
  else if P.checkTok st .LinkStyle then P.parseLinkstyle st
  else P.parseNodeOrLink st

/-- `parse_declaration`. -/
def FPCtx.parseDeclaration (P : FPCtx) (st : FPState) : Option AstNode × FPState :=
  let start := (P.currentSpan st).start
  let isGraph := P.checkTok st .Graph
  let isFlowchart := P.checkTok st .Flowchart
  if ¬ isGraph ∧ ¬ isFlowchart then (none, st)
  else
    match P.advanceTok st with
    | (none, st) => (none, st)
    | (some kwTok, st) =>
      let (dirOpt, st) :=
        if P.checkTok st .DirectionValue then
          match P.advanceTok st with
          | (some dtok, st') => (FlowDirection.fromStr dtok.text, st')
          | (none, st') => ((none : Option FlowDirection), st')
        else (some .TopToBottom, st)
      let stop := (P.previousSpan st).stop
      let node := AstNode.withText .DiagramDeclaration ⟨start, stop⟩ kwTok.text
      let node := match dirOpt with
        | some dir => node.addProperty "direction".toList dir.debugStr
        | none => node
      (some node, st)

/-- The statement loop of `FlowchartParserImpl::parse`. -/
def FPCtx.stmtLoop (P : FPCtx) : Nat → AstNode → FPState → AstNode × FPState
  | 0, root, st => (root, st)
  | fuel + 1, root, st =>
    if P.isAtEnd st then (root, st)
    else
      let st := P.skipNewlines (P.tks.length + 1) st
      if P.isAtEnd st then (root, st)
      else
        match P.parseStatement st with
        | (some stmt, st) => P.stmtLoop fuel (root.addChild stmt) st
        | (none, st) => P.stmtLoop fuel root (P.skipToNewline st)

/-- `FlowchartParser::parse` (tokenize then run `FlowchartParserImpl`). -/
def flowchartParse (code : Str) (_config : MermaidConfig) :
    Except (List Diagnostic) Ast :=
  let P : FPCtx := ⟨tokenize code, code.length⟩
  let st : FPState := ⟨0, []⟩
  let root := AstNode.new .Root ⟨0, code.length⟩
  let st := P.skipNewlines (P.tks.length + 1) st
  match P.parseDeclaration st with
  | (none, st) =>
    let st := st.push (Diagnostic.error .ParserError
      "Expected 'graph' or 'flowchart' declaration".toList ⟨0, 0⟩)
    .error st.diags
  | (some decl, st) =>
    let root := root.addChild decl
    let st := P.skipNewlines (P.tks.length + 1) st
    let (root, st) := P.stmtLoop (P.tks.length + 1) root st
    if st.diags.any (fun d => d.severity.isError) then .error st.diags
    else .ok (Ast.new root code)

/-! ## Dispatcher and orchestrator: `src/parser/mod.rs`, `src/lib.rs` -/

/-- The per-kind diagram parsers that are not embedded in this development
(`sequence`, `class`, `state`, `er`, `gantt`, `journey`, `pie`,
`gitgraph`).  `parse_diagram` is embedded parametrically in them; every
theorem below holds for every choice of these parsers, which shows the
claims do not depend on their internals. -/
structure DiagramParsers where
  sequenceP : Str → MermaidConfig → Except (List Diagnostic) Ast
  classP : Str → MermaidConfig → Except (List Diagnostic) Ast
  stateP : Str → MermaidConfig → Except (List Diagnostic) Ast
  erP : Str → Except (List Diagnostic) Ast
  ganttP : Str → Except (List Diagnostic) Ast
  journeyP : Str → Except (List Diagnostic) Ast
  pieP : Str → Except (List Diagnostic) Ast
  gitgraphP : Str → Except (List Diagnostic) Ast

/-- The minimal AST produced by the dispatcher's stub branch. -/
def stubAst (dt : DiagramType) (code : Str) : Ast :=
  Ast.new
    (((AstNode.new .Root ⟨0, code.length⟩).addProperty
        "diagram_type".toList dt.asStr).addProperty "status".toList "stub".toList)
    code

/-- The diagram kinds routed to the stub branch of `parse_diagram`
(every kind without a dedicated parser arm). -/
def isStubKind : DiagramType → Bool
  | .Error | .BadFrontmatter => false
  | .Flowchart | .FlowchartV2 | .FlowchartElk => false
  | .Sequence | .Class | .ClassDiagram | .State | .StateDiagram => false
  | .Er | .Gantt | .Journey | .Pie | .GitGraph => false
  | _ => true

/-- `parse_diagram` from `src/parser/mod.rs`.  The `Error`/`BadFrontmatter`
arm is `unreachable!()` in Rust (a panic; `parse` never dispatches those
kinds); it is modelled as an empty failure. -/
def parseDiagram (P : DiagramParsers) (dt : DiagramType) (code : Str)
    (config : MermaidConfig) : Except (List Diagnostic) Ast :=
  match dt with
  | .Error | .BadFrontmatter => .error []
  | .Flowchart | .FlowchartV2 | .FlowchartElk => flowchartParse code config
  | .Sequence => P.sequenceP code config
  | .Class | .ClassDiagram => P.classP code config
  | .State | .StateDiagram => P.stateP code config
  | .Er => P.erP code
  | .Gantt => P.ganttP code
  | .Journey => P.journeyP code
  | .Pie => P.pieP code
  | .GitGraph => P.gitgraphP code
  | _ => .ok (stubAst dt code)

def badFrontmatterMsg : Str :=
  ("Diagrams beginning with --- are not valid. If you were trying to use a "
    ++ "YAML front-matter, please ensure that you've correctly opened and "
    ++ "closed the YAML front-matter with un-indented `---` blocks").toList

/-- `parse` from `src/lib.rs`, the orchestrator, parametric in the
non-embedded per-kind parsers. -/
def parse (P : DiagramParsers) (code : Str) (options : Option ParseOptions) :
    ParseResult :=
  let opts := options.getD ParseOptions.default
  let pre := preprocess code
  let config := (opts.baseConfig.getD MermaidConfig.default).merge pre.config
  match detectType pre.code config with
  | none =>
    (ParseResult.failureSingle (Diagnostic.new .UnknownDiagram
      "Could not detect diagram type".toList .Error Span.default)).withTitle pre.title
  | some dt =>
    if dt = .Error then
      (ParseResult.failureSingle (Diagnostic.new .ParserError
        "Error diagram type".toList .Error Span.default)).withTitle pre.title
    else if dt = .BadFrontmatter then
      (ParseResult.failureSingle (Diagnostic.new .FrontmatterParseError
        badFrontmatterMsg .Error Span.default)).withTitle pre.title
    else
      let codeToParse := if dt.needsEntityEncoding then encodeEntities pre.code else pre.code
      match parseDiagram P dt codeToParse config with
      | .ok ast =>
        { ParseResult.success dt config ast with title := pre.title }
      | .error ds =>
        { ParseResult.failure ds with
            diagramType := some dt, config := config, title := pre.title }

/-- `validate` from `src/lib.rs`. -/
def validate (P : DiagramParsers) (code : Str) (options : Option ParseOptions) : Bool :=
  (parse P code options).ok

/-- Two configurations set disjoint fields: no optional field is set in
both, and `wrap` is not set (true) in both. -/
def MermaidConfig.fieldsDisjoint (b c : MermaidConfig) : Prop :=
  ¬ (b.flowchart.defaultRenderer.isSome ∧ c.flowchart.defaultRenderer.isSome)
  ∧ ¬ (b.cls.defaultRenderer.isSome ∧ c.cls.defaultRenderer.isSome)
  ∧ ¬ (b.state.defaultRenderer.isSome ∧ c.state.defaultRenderer.isSome)
  ∧ ¬ (b.gantt.displayMode.isSome ∧ c.gantt.displayMode.isSome)
  ∧ ¬ (b.wrap = true ∧ c.wrap = true)
  ∧ ¬ (b.layout.isSome ∧ c.layout.isSome)

instance (b c : MermaidConfig) : Decidable (b.fieldsDisjoint c) := by
  unfold MermaidConfig.fieldsDisjoint; infer_instance

/-- A trivial instantiation of the non-embedded parsers, used to evaluate
`parse` at concrete inputs whose processing never reaches them. -/
def trivParsers : DiagramParsers :=
  ⟨fun _ _ => .error [], fun _ _ => .error [], fun _ _ => .error [],
   fun _ => .error [], fun _ => .error [], fun _ => .error [],
   fun _ => .error [], fun _ => .error []⟩

/-! # Helper lemmas -/

theorem attrRewriteF_irrel : ∀ f1 s, s.length < f1 → ∀ f2, s.length < f2 →
    attrRewriteF f1 s = attrRewriteF f2 s := by
  intro f1 s
  induction f1, s using attrRewriteF.induct with
  | case1 => intro h; omega
  | case2 n =>
    intro _ f2 h2
    cases f2 with
    | zero => omega
    | succ f2 => rfl
  | case3 fuel =>
    intro _ f2 h2
    cases f2 with
    | zero => omega
    | succ f2 => rfl
  | case4 fuel rest hdrop ih =>
    intro h1 f2 h2
    cases f2 with
    | zero => omega
    | succ f2 =>
      simp only [attrRewriteF, hdrop, if_true]
      rw [ih (by simp at h1 ⊢; omega) f2 (by simp at h2 ⊢; omega)]
  | case5 fuel rest x rest1 hdrop ih =>
    intro h1 f2 h2
    cases f2 with
    | zero => omega
    | succ f2 =>
      have hlen : rest1.length < rest.length + 1 := by
        have h3 : (rest.dropWhile (fun x => x ≠ quoteC)).length ≤ rest.length :=
          (rest.dropWhile_sublist _).length_le
        rw [hdrop] at h3
        simp at h3
        omega
      simp only [attrRewriteF, hdrop, if_true]
      rw [ih (by simp at h1; omega) f2 (by simp at h2; omega)]
  | case6 fuel hd rest hq ih =>
    intro h1 f2 h2
    cases f2 with
    | zero => omega
    | succ f2 =>
      simp only [attrRewriteF, if_true, if_neg hq]
      rw [ih (by simp at h1 ⊢; omega) f2 (by simp at h2 ⊢; omega)]
  | case7 fuel c r hc ih =>
    intro h1 f2 h2
    cases f2 with
    | zero => omega
    | succ f2 =>
      simp only [attrRewriteF, if_neg hc]
      rw [ih (by simp at h1 ⊢; omega) f2 (by simp at h2 ⊢; omega)]

theorem takeWhile_append_all {p : Char → Bool} : ∀ (w m : Str), (∀ c ∈ w, p c = true) →
    (w ++ m).takeWhile p = w ++ m.takeWhile p := by
  intro w
  induction w with
  | nil => intro m _; rfl
  | cons c w' ih =>
    intro m hw
    have hc := hw c (by simp)
    simp [List.takeWhile_cons, hc, ih m (fun d hd => hw d (by simp [hd]))]

theorem dropWhile_append_all {p : Char → Bool} : ∀ (w m : Str), (∀ c ∈ w, p c = true) →
    (w ++ m).dropWhile p = m.dropWhile p := by
  intro w
  induction w with
  | nil => intro m _; rfl
  | cons c w' ih =>
    intro m hw
    have hc := hw c (by simp)
    simp [List.dropWhile_cons, hc, ih m (fun d hd => hw d (by simp [hd]))]

theorem takeWhile_append_stop {p : Char → Bool} {x : Char} (hx : p x = false) :
    ∀ (A T : Str), (A ++ x :: T).takeWhile p = A.takeWhile p := by
  intro A
  induction A with
  | nil => intro T; simp [List.takeWhile_cons, hx]
  | cons c A' ih =>
    intro T
    simp only [List.cons_append, List.takeWhile_cons]
    cases hc : p c with
    | true => simp [ih]
    | false => simp

theorem dropWhile_append_stop {p : Char → Bool} {x : Char} (hx : p x = false) :
    ∀ (A T : Str), (A ++ x :: T).dropWhile p = A.dropWhile p ++ x :: T := by
  intro A
  induction A with
  | nil => intro T; simp [List.dropWhile_cons, hx]
  | cons c A' ih =>
    intro T
    simp only [List.cons_append, List.dropWhile_cons]
    cases hc : p c with
    | true => simp [ih]
    | false => simp

/-- Step equation: a non-`'='` head is copied. -/
theorem attrRewrite_cons_ne (c : Char) (r : Str) (hc : c ≠ '=') :
    attrRewrite (c :: r) = c :: attrRewrite r := by
  simp only [attrRewrite, List.length_cons, attrRewriteF, if_neg hc]

theorem attrRewrite_eq_nil : attrRewrite ['='] = ['='] := rfl

/-- Step equation: `'='` not followed by a quote is copied. -/
theorem attrRewrite_eq_cons (c2 : Char) (r2 : Str) (hq : c2 ≠ quoteC) :
    attrRewrite ('=' :: c2 :: r2) = '=' :: attrRewrite (c2 :: r2) := by
  simp only [attrRewrite, List.length_cons, attrRewriteF, if_neg hq, if_true]

/-- Step equation: `="` with no closing quote is copied. -/
theorem attrRewrite_eq_quote_none (r2 : Str)
    (hdrop : r2.dropWhile (fun x => x ≠ quoteC) = []) :
    attrRewrite ('=' :: quoteC :: r2) = '=' :: attrRewrite (quoteC :: r2) := by
  simp only [attrRewrite, List.length_cons, attrRewriteF, hdrop, if_true]

/-- Step equation: a matched `="…"` attribute is rewritten to `='…'`. -/
theorem attrRewrite_eq_quote_some (r2 : Str) (x : Char) (rest : Str)
    (hdrop : r2.dropWhile (fun x => x ≠ quoteC) = x :: rest) :
    attrRewrite ('=' :: quoteC :: r2) =
      '=' :: aposC :: (r2.takeWhile (fun x => x ≠ quoteC) ++ aposC :: attrRewrite rest) := by
  have hlen : rest.length < r2.length + 2 := by
    have h3 : (r2.dropWhile (fun x => x ≠ quoteC)).length ≤ r2.length :=
      (r2.dropWhile_sublist _).length_le
    rw [hdrop] at h3
    simp at h3
    omega
  simp only [attrRewrite, List.length_cons, attrRewriteF, hdrop, if_true]
  rw [attrRewriteF_irrel (r2.length + 2) rest hlen (rest.length + 1) (by omega)]

/-- `attrRewrite` preserves the head character. -/
theorem attrRewrite_head : ∀ s : Str, (attrRewrite s).head? = s.head? := by
  intro s
  match s with
  | [] => rfl
  | c :: r =>
    by_cases hc : c = '='
    · subst hc
      match r with
      | [] => rfl
      | c2 :: r2 =>
        by_cases hq : c2 = quoteC
        · subst hq
          cases hdrop : r2.dropWhile (fun x => x ≠ quoteC) with
          | nil => rw [attrRewrite_eq_quote_none r2 hdrop]; rfl
          | cons x rest => rw [attrRewrite_eq_quote_some r2 x rest hdrop]; rfl
        · rw [attrRewrite_eq_cons c2 r2 hq]; rfl
    · rw [attrRewrite_cons_ne c r hc]; rfl

/-- Characters of `attrRewrite s` come from `s` or are the inserted
apostrophe. -/
theorem attrRewrite_chars : ∀ fuel (s : Str), ∀ c ∈ attrRewriteF fuel s, c ∈ s ∨ c = aposC := by
  intro fuel s
  induction fuel, s using attrRewriteF.induct with
  | case1 => intro c hc; simp [attrRewriteF] at hc
  | case2 n => intro c hc; simp [attrRewriteF] at hc
  | case3 fuel => intro c hc; simp [attrRewriteF] at hc; simp [hc]
  | case4 fuel rest hdrop ih =>
    intro c hc
    simp only [attrRewriteF, hdrop, if_true, List.mem_cons] at hc
    rcases hc with hc | hc
    · simp [hc]
    · rcases ih c hc with h | h
      · simp [List.mem_cons] at h ⊢; tauto
      · exact Or.inr h
  | case5 fuel rest x rest1 hdrop ih =>
    intro c hc
    simp only [attrRewriteF, hdrop, if_true, List.mem_cons, List.mem_append] at hc
    rcases hc with hc | hc | (hc | (hc | hc))
    · simp [hc]
    · exact Or.inr hc
    · left
      have : c ∈ rest := (rest.takeWhile_sublist _).subset hc
      simp [this]
    · exact Or.inr hc
    · rcases ih c hc with h | h
      · left
        have h2 : c ∈ rest.dropWhile (fun x => x ≠ quoteC) := by rw [hdrop]; simp [h]
        have : c ∈ rest := (rest.dropWhile_sublist _).subset h2
        simp [this]
      · exact Or.inr h
  | case6 fuel hd rest hq ih =>
    intro c hc
    simp only [attrRewriteF, if_neg hq, if_true, List.mem_cons] at hc
    rcases hc with hc | hc
    · simp [hc]
    · rcases ih c hc with h | h
      · simp [List.mem_cons] at h ⊢; tauto
      · exact Or.inr h
  | case7 fuel c0 r hc0 ih =>
    intro c hc
    simp only [attrRewriteF, if_neg hc0, List.mem_cons] at hc
    rcases hc with hc | hc
    · simp [hc]
    · rcases ih c hc with h | h
      · simp [List.mem_cons] at h ⊢; tauto
      · exact Or.inr h

/-- A quote-free string is a fixed point of `attrRewrite`. -/
theorem attrRewrite_noquote : ∀ s : Str, (∀ c ∈ s, c ≠ quoteC) → attrRewrite s = s := by
  intro s
  induction s with
  | nil => intro _; rfl
  | cons c r ih =>
    intro h
    by_cases hc : c = '='
    · subst hc
      match r, ih, h with
      | [], _, _ => rfl
      | c2 :: r2, ih, h =>
        have hq : c2 ≠ quoteC := h c2 (by simp)
        rw [attrRewrite_eq_cons c2 r2 hq, ih (fun d hd => h d (by simp [hd]))]
    · rw [attrRewrite_cons_ne c r hc, ih (fun d hd => h d (by simp [hd]))]

/-- A quote-free block whose last character is not `'='` can be split off
the front of `attrRewrite`. -/
theorem attrRewrite_skip : ∀ (l m : Str), (∀ c ∈ l, c ≠ quoteC) →
    (l = [] ∨ l.getLast? ≠ some '=') →
    attrRewrite (l ++ m) = l ++ attrRewrite m := by
  intro l
  induction l with
  | nil => intro m _ _; rfl
  | cons c l' ih =>
    intro m hq hlast
    have hlast' : (c :: l').getLast? ≠ some '=' := by
      rcases hlast with h | h
      · exact absurd h (by simp)
      · exact h
    by_cases hc : c = '='
    · subst hc
      match l' with
      | [] => simp at hlast'
      | c2 :: l'' =>
        have hq2 : c2 ≠ quoteC := hq c2 (by simp)
        rw [List.cons_append, List.cons_append, attrRewrite_eq_cons c2 (l'' ++ m) hq2,
          ← List.cons_append, ih m (fun d hd => hq d (by simp [hd]))]
        · rfl
        · exact Or.inr (fun hx => hlast' hx)
    · rw [List.cons_append, attrRewrite_cons_ne c (l' ++ m) hc]
      rcases l' with _ | ⟨d, l''⟩
      · rfl
      · rw [ih m (fun d hd => hq d (by simp [hd]))]
        · rfl
        · exact Or.inr (fun hx => hlast' hx)

theorem attrRewriteF_eq (s : Str) : attrRewriteF (s.length + 1) s = attrRewrite s := rfl

/-- `attrRewrite` is idempotent. -/
theorem attrRewrite_idem_aux : ∀ fuel (s : Str), s.length < fuel →
    attrRewrite (attrRewriteF fuel s) = attrRewriteF fuel s := by
  intro fuel s
  induction fuel, s using attrRewriteF.induct with
  | case1 => intro h; omega
  | case2 n => intro _; rfl
  | case3 fuel => intro _; rfl
  | case4 fuel rest hdrop ih =>
    intro h1
    have hnq : ∀ c ∈ rest, c ≠ quoteC := by
      have := List.dropWhile_eq_nil_iff.mp hdrop
      intro c hc
      have h2 := this c hc
      simpa using h2
    have hfuel : 0 < fuel := by simp at h1; omega
    have hx : attrRewriteF fuel (quoteC :: rest) = quoteC :: rest := by
      rw [attrRewriteF_irrel fuel (quoteC :: rest) (by simp at h1 ⊢; omega)
        ((quoteC :: rest).length + 1) (by omega)]
      rw [attrRewriteF_eq]
      rw [attrRewrite_cons_ne quoteC rest (by decide), attrRewrite_noquote rest hnq]
    simp only [attrRewriteF, hdrop, if_true, hx]
    rw [attrRewrite_eq_quote_none rest hdrop, attrRewrite_cons_ne quoteC rest (by decide),
      attrRewrite_noquote rest hnq]
  | case5 fuel rest x rest1 hdrop ih =>
    intro h1
    have hlen : rest1.length < fuel := by
      have h3 : (rest.dropWhile (fun x => x ≠ quoteC)).length ≤ rest.length :=
        (rest.dropWhile_sublist _).length_le
      rw [hdrop] at h3
      simp at h1 h3
      omega
    have hX : attrRewriteF fuel rest1 = attrRewrite rest1 :=
      attrRewriteF_irrel fuel rest1 hlen (rest1.length + 1) (by omega)
    have hIH : attrRewrite (attrRewrite rest1) = attrRewrite rest1 := by
      rw [← hX]; exact ih hlen
    have htw : ∀ c ∈ rest.takeWhile (fun x => x ≠ quoteC) ++ [aposC], c ≠ quoteC := by
      intro c hc
      rcases List.mem_append.mp hc with h | h
      · have h2 := List.mem_takeWhile_imp h
        simpa using h2
      · simp at h
        simp [h, aposC, quoteC, Char.ofNat]
    have ha1 : aposC ≠ '=' := by decide
    have ha2 : aposC ≠ quoteC := by decide
    simp only [attrRewriteF, hdrop, if_true, hX]
    rw [attrRewrite_eq_cons aposC _ ha2, attrRewrite_cons_ne aposC _ ha1]
    have hsplit : rest.takeWhile (fun x => x ≠ quoteC) ++ aposC :: attrRewrite rest1
        = (rest.takeWhile (fun x => x ≠ quoteC) ++ [aposC]) ++ attrRewrite rest1 := by
      simp
    rw [hsplit, attrRewrite_skip _ _ htw (Or.inr (by simpa using ha1)), hIH]
  | case6 fuel hd rest hq ih =>
    intro h1
    have hlen : (hd :: rest).length < fuel := by simp at h1 ⊢; omega
    have hIH := ih hlen
    have hhead : (attrRewriteF fuel (hd :: rest)).head? = some hd := by
      rw [attrRewriteF_irrel fuel (hd :: rest) hlen ((hd :: rest).length + 1) (by omega),
        attrRewriteF_eq, attrRewrite_head]
      rfl
    simp only [attrRewriteF, if_neg hq, if_true]
    cases hXc : attrRewriteF fuel (hd :: rest) with
    | nil => rw [hXc] at hhead; simp at hhead
    | cons x xs =>
      rw [hXc] at hhead hIH
      have hx : x = hd := by simpa using hhead
      rw [attrRewrite_eq_cons x xs (by rw [hx]; exact hq), hIH]
  | case7 fuel c r hc ih =>
    intro h1
    have hlen : r.length < fuel := by simp at h1; omega
    simp only [attrRewriteF, if_neg hc]
    rw [attrRewrite_cons_ne c _ hc, ih hlen]

theorem attrRewrite_idem (s : Str) : attrRewrite (attrRewrite s) = attrRewrite s :=
  attrRewrite_idem_aux (s.length + 1) s (by omega)

theorem drop_takeWhile_length {p : Char → Bool} : ∀ l : Str,
    l.drop (l.takeWhile p).length = l.dropWhile p := by
  intro l
  induction l with
  | nil => rfl
  | cons c r ih =>
    simp only [List.takeWhile_cons, List.dropWhile_cons]
    cases hc : p c with
    | true => simpa using ih
    | false => simp

theorem dropWhile_cons_head {p : Char → Bool} : ∀ (l : Str) (x : Char) (xs : Str),
    l.dropWhile p = x :: xs → p x = false := by
  intro l
  induction l with
  | nil => intro x xs h; simp at h
  | cons c r ih =>
    intro x xs h
    simp only [List.dropWhile_cons] at h
    cases hc : p c with
    | true => rw [hc] at h; simp at h; exact ih x xs h
    | false => rw [hc] at h; simp at h; rw [← h.1]; exact hc

theorem fixTagsF_irrel : ∀ f1 s, s.length < f1 → ∀ f2, s.length < f2 →
    fixTagsF f1 s = fixTagsF f2 s := by
  intro f1 s
  induction f1, s using fixTagsF.induct with
  | case1 => intro h; omega
  | case2 n =>
    intro _ f2 h2
    cases f2 with
    | zero => omega
    | succ f2 => rfl
  | case3 fuel r w hw ih =>
    intro h1 f2 h2
    have hw' : List.takeWhile isWordChar r = [] := hw
    cases f2 with
    | zero => omega
    | succ f2 =>
      simp only [fixTagsF, hw', if_true, if_pos rfl]
      rw [ih (by simp at h1; omega) f2 (by simp at h2; omega)]
  | case4 fuel r w hw hdrop ih =>
    intro h1 f2 h2
    cases f2 with
    | zero => omega
    | succ f2 =>
      simp only [fixTagsF, if_neg hw, hdrop, if_true]
      rw [ih (by simp at h1; omega) f2 (by simp at h2; omega)]
  | case5 fuel r w hw hd rest hdrop ih =>
    intro h1 f2 h2
    cases f2 with
    | zero => omega
    | succ f2 =>
      have hlen : rest.length < r.length := by
        have h3 : ((r.drop w.length).dropWhile (fun x => x ≠ '>')).length
            ≤ (r.drop w.length).length :=
          ((r.drop w.length).dropWhile_sublist _).length_le
        rw [hdrop] at h3
        have h4 : (r.drop w.length).length ≤ r.length := by simp [List.length_drop]
        simp at h3
        omega
      simp only [fixTagsF, if_neg hw, hdrop, if_true]
      rw [ih (by simp at h1; omega) f2 (by simp at h2; omega)]
  | case6 fuel c r hc ih =>
    intro h1 f2 h2
    cases f2 with
    | zero => omega
    | succ f2 =>
      simp only [fixTagsF, if_neg hc]
      rw [ih (by simp at h1 ⊢; omega) f2 (by simp at h2 ⊢; omega)]

theorem fixTags_cons_ne (c : Char) (r : Str) (hc : c ≠ '<') :
    fixTags (c :: r) = c :: fixTags r := by
  simp only [fixTags, List.length_cons, fixTagsF, if_neg hc]

theorem fixTags_lt_noword (r : Str) (hw : r.takeWhile isWordChar = []) :
    fixTags ('<' :: r) = '<' :: fixTags r := by
  simp only [fixTags, List.length_cons, fixTagsF, hw, if_true, if_pos rfl]

theorem fixTags_lt_nogt (r : Str) (hw : r.takeWhile isWordChar ≠ [])
    (hdrop : (r.drop (r.takeWhile isWordChar).length).dropWhile (fun x => x ≠ '>') = []) :
    fixTags ('<' :: r) = '<' :: fixTags r := by
  simp only [fixTags, List.length_cons, fixTagsF, if_neg hw, hdrop, if_true]

theorem fixTags_lt_match (r : Str) (hw : r.takeWhile isWordChar ≠ [])
    (hd : Char) (rest : Str)
    (hdrop : (r.drop (r.takeWhile isWordChar).length).dropWhile (fun x => x ≠ '>')
      = hd :: rest) :
    fixTags ('<' :: r) = '<' :: (r.takeWhile isWordChar
      ++ attrRewrite ((r.drop (r.takeWhile isWordChar).length).takeWhile (fun x => x ≠ '>')))
      ++ '>' :: fixTags rest := by
  have hlen : rest.length < r.length := by
    have h3 : ((r.drop (r.takeWhile isWordChar).length).dropWhile (fun x => x ≠ '>')).length
        ≤ (r.drop (r.takeWhile isWordChar).length).length :=
      ((r.drop (r.takeWhile isWordChar).length).dropWhile_sublist _).length_le
    rw [hdrop] at h3
    have h4 : (r.drop (r.takeWhile isWordChar).length).length ≤ r.length := by
      simp [List.length_drop]
    simp at h3
    omega
  simp only [fixTags, List.length_cons, fixTagsF, if_neg hw, hdrop, if_true]
  rw [fixTagsF_irrel (r.length + 1) rest (by omega) (rest.length + 1) (by omega)]

/-- A `'>'`-free string is a fixed point of `fixTags`. -/
theorem fixTags_nogt : ∀ s : Str, (∀ c ∈ s, c ≠ '>') → fixTags s = s := by
  intro s
  induction s with
  | nil => intro _; rfl
  | cons c r ih =>
    intro h
    have hr : ∀ d ∈ r, d ≠ '>' := fun d hd => h d (by simp [hd])
    by_cases hc : c = '<'
    · subst hc
      cases hw : r.takeWhile isWordChar with
      | nil => rw [fixTags_lt_noword r hw, ih hr]
      | cons x xs =>
        have hdrop : (r.drop (r.takeWhile isWordChar).length).dropWhile
            (fun x => x ≠ '>') = [] := by
          rw [drop_takeWhile_length]
          rw [List.dropWhile_eq_nil_iff]
          intro y hy
          have : y ∈ r := (r.dropWhile_sublist isWordChar).subset hy
          simpa using hr y this
        rw [fixTags_lt_nogt r (by rw [hw]; simp) hdrop, ih hr]
    · rw [fixTags_cons_ne c r hc, ih hr]

/-- A `'<'`-free string is a fixed point of `fixTags`. -/
theorem fixTags_nolt : ∀ s : Str, (∀ c ∈ s, c ≠ '<') → fixTags s = s := by
  intro s
  induction s with
  | nil => intro _; rfl
  | cons c r ih =>
    intro h
    have hc : c ≠ '<' := h c (by simp)
    rw [fixTags_cons_ne c r hc, ih (fun d hd => h d (by simp [hd]))]

theorem fixTags_head : ∀ s : Str, (fixTags s).head? = s.head? := by
  intro s
  match s with
  | [] => rfl
  | c :: r =>
    by_cases hc : c = '<'
    · subst hc
      cases hw : r.takeWhile isWordChar with
      | nil => rw [fixTags_lt_noword r hw]; rfl
      | cons x xs =>
        cases hdrop : (r.drop (r.takeWhile isWordChar).length).dropWhile
            (fun x => x ≠ '>') with
        | nil => rw [fixTags_lt_nogt r (by rw [hw]; simp) hdrop]; rfl
        | cons hd rest => rw [fixTags_lt_match r (by rw [hw]; simp) hd rest hdrop]; rfl
    · rw [fixTags_cons_ne c r hc]; rfl

/-- Characters of `fixTags s` come from `s`, the tag delimiters, or the
inserted apostrophe. -/
theorem fixTags_chars : ∀ fuel (s : Str), ∀ c ∈ fixTagsF fuel s,
    c ∈ s ∨ c = '<' ∨ c = '>' ∨ c = aposC := by
  intro fuel s
  induction fuel, s using fixTagsF.induct with
  | case1 => intro c hc; simp [fixTagsF] at hc
  | case2 n => intro c hc; simp [fixTagsF] at hc
  | case3 fuel r w hw ih =>
    intro c hc
    have hw' : List.takeWhile isWordChar r = [] := hw
    simp only [fixTagsF, hw', if_true, if_pos rfl, List.mem_cons] at hc
    rcases hc with hc | hc
    · simp [hc]
    · rcases ih c hc with h | h
      · simp [List.mem_cons, h]
      · tauto
  | case4 fuel r w hw hdrop ih =>
    intro c hc
    simp only [fixTagsF, if_neg hw, hdrop, if_true, List.mem_cons] at hc
    rcases hc with hc | hc
    · simp [hc]
    · rcases ih c hc with h | h
      · simp [List.mem_cons, h]
      · tauto
  | case5 fuel r w hw hd rest hdrop ih =>
    intro c hc
    have hdrop' : List.dropWhile (fun x => x ≠ '>')
        (List.drop (List.takeWhile isWordChar r).length r) = hd :: rest := hdrop
    simp only [fixTagsF, if_neg hw, hdrop', if_true, List.mem_cons, List.mem_append] at hc
    rcases hc with (hc | hc | hc) | (hc | hc)
    · simp [hc]
    · left
      have : c ∈ r := (r.takeWhile_sublist isWordChar).subset hc
      simp [this]
    · rcases attrRewrite_chars _ _ c hc with h | h
      · left
        have h2 : c ∈ r.drop w.length := ((r.drop w.length).takeWhile_sublist _).subset h
        have : c ∈ r := (List.drop_sublist _ _).subset h2
        simp [this]
      · tauto
    · simp [hc]
    · rcases ih c hc with h | h
      · left
        have h2 : c ∈ (r.drop w.length).dropWhile (fun x => x ≠ '>') := by
          rw [hdrop]; simp [h]
        have h3 : c ∈ r.drop w.length := ((r.drop w.length).dropWhile_sublist _).subset h2
        have : c ∈ r := (List.drop_sublist _ _).subset h3
        simp [this]
      · tauto
  | case6 fuel c0 r hc0 ih =>
    intro c hc
    simp only [fixTagsF, if_neg hc0, List.mem_cons] at hc
    rcases hc with hc | hc
    · simp [hc]
    · rcases ih c hc with h | h
      · simp [List.mem_cons, h]
      · tauto

/-- A reassembled tag `<wv A>` followed by an already-fixed tail is a fixed
point of `fixTags`, provided the word part is nonempty, the attribute part is
an `attrRewrite` fixed point, and neither contains `'>'`. -/
theorem fixTags_tag_block : ∀ (wv A T : Str), wv ≠ [] →
    (∀ c ∈ wv, isWordChar c = true) →
    attrRewrite A = A → (∀ c ∈ A, c ≠ '>') → fixTags T = T →
    fixTags (('<' :: (wv ++ A)) ++ '>' :: T) = ('<' :: (wv ++ A)) ++ '>' :: T := by
  intro wv A T hwv hwv_word hA hA_nogt hT
  have hsplit : A.takeWhile isWordChar ++ A.dropWhile isWordChar = A :=
    List.takeWhile_append_dropWhile isWordChar A
  have hwa_word : ∀ c ∈ A.takeWhile isWordChar, isWordChar c = true := by
    intro c hc; exact List.mem_takeWhile_imp hc
  have hArest_nogt : ∀ c ∈ A.dropWhile isWordChar, (fun x => decide (x ≠ '>')) c = true := by
    intro c hc
    simpa using hA_nogt c ((A.dropWhile_sublist isWordChar).subset hc)
  have htake : ((wv ++ A) ++ '>' :: T).takeWhile isWordChar
      = wv ++ A.takeWhile isWordChar := by
    rw [takeWhile_append_stop (by decide) (wv ++ A) T]
    exact takeWhile_append_all wv A hwv_word
  have hdroplen : ((wv ++ A) ++ '>' :: T).drop (wv ++ A.takeWhile isWordChar).length
      = A.dropWhile isWordChar ++ '>' :: T := by
    have hre : (wv ++ A) ++ '>' :: T
        = (wv ++ A.takeWhile isWordChar) ++ (A.dropWhile isWordChar ++ '>' :: T) := by
      rw [List.append_assoc, List.append_assoc]
      exact congrArg (fun t => wv ++ t) (by rw [← List.append_assoc, hsplit])
    rw [hre, List.drop_left]
  have hArest_dw : (A.dropWhile isWordChar).dropWhile (fun x => x ≠ '>') = [] := by
    have h0 := dropWhile_append_all (A.dropWhile isWordChar) [] hArest_nogt
    simpa using h0
  have hdw : (A.dropWhile isWordChar ++ '>' :: T).dropWhile (fun x => x ≠ '>')
      = '>' :: T := by
    rw [dropWhile_append_stop (by decide) (A.dropWhile isWordChar) T, hArest_dw]
    rfl
  have hattrs2 : (A.dropWhile isWordChar ++ '>' :: T).takeWhile (fun x => x ≠ '>')
      = A.dropWhile isWordChar := by
    rw [takeWhile_append_all (A.dropWhile isWordChar) ('>' :: T) hArest_nogt]
    simp [List.takeWhile_cons]
  have hdrop2 : (((wv ++ A) ++ '>' :: T).drop
      ((((wv ++ A) ++ '>' :: T)).takeWhile isWordChar).length).dropWhile
        (fun x => x ≠ '>') = '>' :: T := by
    rw [htake, hdroplen, hdw]
  have hkey : A.takeWhile isWordChar ++ attrRewrite (A.dropWhile isWordChar) = A := by
    have hq : ∀ c ∈ A.takeWhile isWordChar, c ≠ quoteC := by
      intro c hc he
      have h2 := hwa_word c hc
      rw [he] at h2
      exact absurd h2 (by decide)
    have hl : A.takeWhile isWordChar = [] ∨
        (A.takeWhile isWordChar).getLast? ≠ some '=' := by
      cases hwa : A.takeWhile isWordChar with
      | nil => exact Or.inl rfl
      | cons x xs =>
        refine Or.inr (fun heq => ?_)
        have hne : (x :: xs : Str) ≠ [] := by simp
        rw [List.getLast?_eq_getLast _ hne, Option.some.injEq] at heq
        have h3 := List.getLast_mem hne
        rw [heq] at h3
        have h2 := hwa_word '=' (by rw [hwa]; exact h3)
        exact absurd h2 (by decide)
    have hskip := attrRewrite_skip (A.takeWhile isWordChar) (A.dropWhile isWordChar) hq hl
    rw [← hskip, hsplit, hA]
  rw [List.cons_append]
  rw [fixTags_lt_match ((wv ++ A) ++ '>' :: T) (by rw [htake]; simp [hwv]) '>' T hdrop2]
  rw [htake, hdroplen, hattrs2, hT]
  rw [List.append_assoc wv (A.takeWhile isWordChar) (attrRewrite (A.dropWhile isWordChar))]
  rw [hkey]
  rw [List.cons_append]

theorem fixTags_idem_aux : ∀ fuel (s : Str), s.length < fuel →
    fixTags (fixTagsF fuel s) = fixTagsF fuel s := by
  intro fuel s
  induction fuel, s using fixTagsF.induct with
  | case1 => intro h; omega
  | case2 n => intro _; rfl
  | case3 fuel r w hw ih =>
    intro h1
    have hw' : List.takeWhile isWordChar r = [] := hw
    have hrlen : r.length < fuel := by simp at h1; omega
    have hT : fixTagsF fuel r = fixTags r :=
      fixTagsF_irrel fuel r hrlen (r.length + 1) (by omega)
    have ihT : fixTags (fixTags r) = fixTags r := by
      have h5 := ih hrlen; rw [hT] at h5; exact h5
    have hstep : fixTagsF (fuel + 1) ('<' :: r) = '<' :: fixTags r := by
      simp only [fixTagsF, hw', if_true, if_pos rfl]
      rw [hT]
    rw [hstep]
    have htw : (fixTags r).takeWhile isWordChar = [] := by
      cases r with
      | nil => rfl
      | cons c r' =>
        have hcw : isWordChar c = false := by
          rw [List.takeWhile_cons] at hw'
          by_cases hb : isWordChar c
          · rw [if_pos hb] at hw'; exact absurd hw' (by simp)
          · simpa using hb
        have hh : (fixTags (c :: r')).head? = some c := by rw [fixTags_head]; rfl
        cases hft : fixTags (c :: r') with
        | nil => rfl
        | cons d t =>
          rw [hft] at hh
          simp at hh
          simp [List.takeWhile_cons, hh, hcw]
    rw [fixTags_lt_noword (fixTags r) htw, ihT]
  | case4 fuel r w hw hdrop ih =>
    intro h1
    have hw' : List.takeWhile isWordChar r ≠ [] := hw
    have hdrop' : List.dropWhile (fun x => x ≠ '>')
        (List.drop (List.takeWhile isWordChar r).length r) = [] := hdrop
    have hrlen : r.length < fuel := by simp at h1; omega
    have hnogt : ∀ c ∈ r, c ≠ '>' := by
      intro c hc
      have hsplit : List.takeWhile isWordChar r ++ List.dropWhile isWordChar r = r :=
        List.takeWhile_append_dropWhile isWordChar r
      rw [← hsplit] at hc
      rcases List.mem_append.mp hc with h | h
      · intro he
        have h2 := List.mem_takeWhile_imp h
        rw [he] at h2
        exact absurd h2 (by decide)
      · rw [← drop_takeWhile_length] at h
        have h2 := List.dropWhile_eq_nil_iff.mp hdrop' c h
        simpa using h2
    have hfix : fixTagsF fuel r = r := by
      rw [fixTagsF_irrel fuel r hrlen (r.length + 1) (by omega)]
      exact fixTags_nogt r hnogt
    have hstep : fixTagsF (fuel + 1) ('<' :: r) = '<' :: r := by
      simp only [fixTagsF, if_neg hw', hdrop', if_true, if_pos rfl]
      rw [hfix]
    rw [hstep]
    rw [fixTags_lt_nogt r hw' hdrop']
    rw [fixTags_nogt r hnogt]
  | case5 fuel r w hw hd rest hdrop ih =>
    intro h1
    have hw' : List.takeWhile isWordChar r ≠ [] := hw
    have hdrop' : List.dropWhile (fun x => x ≠ '>')
        (List.drop (List.takeWhile isWordChar r).length r) = hd :: rest := hdrop
    have hrlen : r.length < fuel := by simp at h1; omega
    have hrest : rest.length < fuel := by
      have h3 : (List.dropWhile (fun x => x ≠ '>')
          (List.drop (List.takeWhile isWordChar r).length r)).length
          ≤ (List.drop (List.takeWhile isWordChar r).length r).length :=
        ((List.drop (List.takeWhile isWordChar r).length r).dropWhile_sublist _).length_le
      rw [hdrop'] at h3
      have h4 : (List.drop (List.takeWhile isWordChar r).length r).length ≤ r.length := by
        simp [List.length_drop]
      simp at h3
      omega
    have hT : fixTagsF fuel rest = fixTags rest :=
      fixTagsF_irrel fuel rest hrest (rest.length + 1) (by omega)
    have ihT : fixTags (fixTags rest) = fixTags rest := by
      have h5 := ih hrest; rw [hT] at h5; exact h5
    have hstep : fixTagsF (fuel + 1) ('<' :: r)
        = ('<' :: (List.takeWhile isWordChar r
            ++ attrRewrite (List.takeWhile (fun x => x ≠ '>')
              (List.drop (List.takeWhile isWordChar r).length r))))
          ++ '>' :: fixTags rest := by
      simp only [fixTagsF, if_neg hw', hdrop', if_true, if_pos rfl]
      rw [hT]
    rw [hstep]
    refine fixTags_tag_block (List.takeWhile isWordChar r)
      (attrRewrite (List.takeWhile (fun x => x ≠ '>')
        (List.drop (List.takeWhile isWordChar r).length r)))
      (fixTags rest) hw'
      (fun c hc => List.mem_takeWhile_imp hc)
      (attrRewrite_idem _) ?_ ihT
    intro c hc
    rcases attrRewrite_chars _ _ c hc with h | h
    · have h2 := List.mem_takeWhile_imp h
      simpa using h2
    · rw [h]; decide
  | case6 fuel c r hc ih =>
    intro h1
    have hrlen : r.length < fuel := by simp at h1; omega
    have hT : fixTagsF fuel r = fixTags r :=
      fixTagsF_irrel fuel r hrlen (r.length + 1) (by omega)
    have ihT : fixTags (fixTags r) = fixTags r := by
      have h5 := ih hrlen; rw [hT] at h5; exact h5
    have hstep : fixTagsF (fuel + 1) (c :: r) = c :: fixTags r := by
      simp only [fixTagsF, if_neg hc]
      rw [hT]
    rw [hstep, fixTags_cons_ne c (fixTags r) hc, ihT]

theorem fixTags_idem (s : Str) : fixTags (fixTags s) = fixTags s :=
  fixTags_idem_aux (s.length + 1) s (by omega)

theorem replCR_cons_ne (c : Char) (r : Str) (hc : ¬ c = '\r') :
    replCR (c :: r) = c :: replCR r := by
  rw [replCR.eq_def]
  split <;> simp_all

/-- `replCR` never leaves a carriage return in its output. -/
theorem replCR_no_cr : ∀ s : Str, '\r' ∉ replCR s := by
  intro s
  induction s using replCR.induct with
  | case1 => simp [replCR]
  | case2 r ih =>
    intro hmem
    simp [replCR] at hmem
    exact ih hmem
  | case3 r h ih =>
    intro hmem
    simp [replCR] at hmem
    exact ih hmem
  | case4 c r h1 h2 ih =>
    intro hmem
    rw [replCR_cons_ne c r h2] at hmem
    rcases List.mem_cons.mp hmem with h | h
    · exact h2 h.symm
    · exact ih h

/-- A string without carriage returns is a fixed point of `replCR`. -/
theorem replCR_id : ∀ s : Str, '\r' ∉ s → replCR s = s := by
  intro s
  induction s using replCR.induct with
  | case1 => intro _; rfl
  | case2 r ih => intro h; simp at h
  | case3 r h ih => intro h2; simp at h2
  | case4 c r h1 h2 ih =>
    intro h
    rw [replCR_cons_ne c r h2]
    rw [ih (fun hm => h (List.mem_cons_of_mem c hm))]

/-- The normalize pass of the preprocessor is idempotent. -/
theorem normalizeText_idem (s : Str) :
    normalizeText (normalizeText s) = normalizeText s := by
  show fixTags (replCR (fixTags (replCR s))) = fixTags (replCR s)
  have hnocr : '\r' ∉ fixTags (replCR s) := by
    intro hmem
    rcases fixTags_chars ((replCR s).length + 1) (replCR s) '\r' hmem with h | h | h | h
    · exact replCR_no_cr s h
    · exact absurd h (by decide)
    · exact absurd h (by decide)
    · exact absurd h (by decide)
  rw [replCR_id _ hnocr, fixTags_idem]

theorem getLast?_mem_of_eq : ∀ (l : Str) (a : Char), l.getLast? = some a → a ∈ l := by
  intro l a h
  cases l with
  | nil => simp at h
  | cons x xs =>
    have hne : (x :: xs : Str) ≠ [] := by simp
    rw [List.getLast?_eq_getLast _ hne, Option.some.injEq] at h
    rw [← h]
    exact List.getLast_mem hne

theorem stripCrEnd_subset (p : Str) : ∀ c ∈ stripCrEnd p, c ∈ p := by
  intro c hc
  cases hl : p.getLast? with
  | none => simpa [stripCrEnd, hl] using hc
  | some d =>
    simp only [stripCrEnd, hl] at hc
    split at hc
    · exact (List.dropLast_sublist p).subset hc
    · exact hc

theorem stripCrEnd_id (p : Str) (h : p.getLast? ≠ some '\r') : stripCrEnd p = p := by
  cases hl : p.getLast? with
  | none => simp [stripCrEnd, hl]
  | some d =>
    have hd : ¬ d = '\r' := fun he => h (by rw [hl, he])
    simp [stripCrEnd, hl, hd]

theorem rustLinesF_irrel : ∀ f1 s, s.length < f1 → ∀ f2, s.length < f2 →
    rustLinesF f1 s = rustLinesF f2 s := by
  intro f1 s
  induction f1, s using rustLinesF.induct with
  | case1 => intro h; omega
  | case2 n =>
    intro _ f2 h2
    cases f2 with
    | zero => omega
    | succ f2 => rfl
  | case3 fuel c r hdrop =>
    intro h1 f2 h2
    cases f2 with
    | zero => omega
    | succ f2 => simp only [rustLinesF, hdrop]
  | case4 fuel c r hd rest hdrop ih =>
    intro h1 f2 h2
    cases f2 with
    | zero => omega
    | succ f2 =>
      have hlen : rest.length < (c :: r).length := by
        have h3 := ((c :: r).dropWhile_sublist (fun x => x ≠ '\n')).length_le
        rw [hdrop] at h3
        simp only [List.length_cons] at h3 ⊢
        omega
      simp only [rustLinesF, hdrop]
      rw [ih (by omega) f2 (by omega)]

/-- Every character of every line produced by the line splitter occurs in the
source and is not a newline. -/
theorem rustLines_mem_chars : ∀ fuel (s : Str), ∀ l ∈ rustLinesF fuel s,
    ∀ c ∈ l, c ∈ s ∧ c ≠ '\n' := by
  intro fuel s
  induction fuel, s using rustLinesF.induct with
  | case1 => intro l hl; simp [rustLinesF] at hl
  | case2 n => intro l hl; simp [rustLinesF] at hl
  | case3 fuel c r hdrop =>
    intro l hl c2 hc2
    simp only [rustLinesF, hdrop, List.mem_singleton] at hl
    subst hl
    refine ⟨hc2, ?_⟩
    have hall := List.dropWhile_eq_nil_iff.mp hdrop c2 hc2
    simpa using hall
  | case4 fuel c r hd rest hdrop ih =>
    intro l hl c2 hc2
    simp only [rustLinesF, hdrop, List.mem_cons] at hl
    rcases hl with hl | hl
    · subst hl
      have hc3 : c2 ∈ (c :: r).takeWhile (fun x => x ≠ '\n') := stripCrEnd_subset _ c2 hc2
      refine ⟨((c :: r).takeWhile_sublist _).subset hc3, ?_⟩
      have h2 := List.mem_takeWhile_imp hc3
      simpa using h2
    · have hrest := ih l hl c2 hc2
      refine ⟨?_, hrest.2⟩
      have h4 : c2 ∈ (c :: r).dropWhile (fun x => x ≠ '\n') := by
        rw [hdrop]; simp [hrest.1]
      exact ((c :: r).dropWhile_sublist _).subset h4

theorem rustLinesF_line (fuel : Nat) (l rest : Str)
    (hnl : ∀ c ∈ l, (fun x => decide (x ≠ '\n')) c = true) :
    rustLinesF (fuel + 1) (l ++ '\n' :: rest) = stripCrEnd l :: rustLinesF fuel rest := by
  cases hl : l ++ '\n' :: rest with
  | nil => exact absurd hl (by simp)
  | cons c r =>
    have hdrop : (c :: r).dropWhile (fun x => x ≠ '\n') = '\n' :: rest := by
      rw [← hl, dropWhile_append_all l _ hnl]
      simp [List.dropWhile_cons]
    have htake : (c :: r).takeWhile (fun x => x ≠ '\n') = l := by
      rw [← hl, takeWhile_append_all l _ hnl]
      simp [List.takeWhile_cons]
    simp only [rustLinesF, hdrop, htake]

theorem rustLines_line (l rest : Str)
    (hnl : ∀ c ∈ l, (fun x => decide (x ≠ '\n')) c = true) :
    rustLines (l ++ '\n' :: rest) = stripCrEnd l :: rustLines rest := by
  show rustLinesF ((l ++ '\n' :: rest).length + 1) (l ++ '\n' :: rest) = _
  have hlen : (l ++ '\n' :: rest).length + 1 = (l.length + rest.length + 1) + 1 := by
    simp only [List.length_append, List.length_cons]
    omega
  rw [hlen, rustLinesF_line (l.length + rest.length + 1) l rest hnl]
  rw [rustLinesF_irrel (l.length + rest.length + 1) rest (by omega) (rest.length + 1) (by omega)]
  rfl

/-- Joining newline-free, `'\r'`-clean lines with `'\n'` and appending a final
newline recovers exactly those lines under the line splitter. -/
theorem rustLines_joinNl : ∀ ls : List Str, ls ≠ [] →
    (∀ l ∈ ls, (∀ c ∈ l, c ≠ '\n') ∧ l.getLast? ≠ some '\r') →
    rustLines (joinNl ls ++ ['\n']) = ls := by
  intro ls
  induction ls with
  | nil => intro h; exact absurd rfl h
  | cons l ls' ih =>
    intro _ hfacts
    have hl := hfacts l (by simp)
    have hnl : ∀ c ∈ l, (fun x => decide (x ≠ '\n')) c = true := by
      intro c hc; simpa using hl.1 c hc
    cases ls' with
    | nil =>
      have he : joinNl [l] ++ ['\n'] = l ++ '\n' :: [] := rfl
      rw [he, rustLines_line l [] hnl, stripCrEnd_id l hl.2]
      rfl
    | cons l2 ls'' =>
      have hjoin : joinNl (l :: l2 :: ls'') = l ++ '\n' :: joinNl (l2 :: ls'') := rfl
      rw [hjoin, List.append_assoc, List.cons_append]
      rw [rustLines_line l (joinNl (l2 :: ls'') ++ ['\n']) hnl, stripCrEnd_id l hl.2]
      rw [ih (by simp) (fun x hx => hfacts x (by simp [hx]))]

theorem removeComments_eq (s : Str) : removeComments s =
    (if s.getLast? = some '\n' ∧
        joinNl ((rustLines s).filter (fun l => !(isCommentLine l))) ≠ []
      then joinNl ((rustLines s).filter (fun l => !(isCommentLine l))) ++ ['\n']
      else joinNl ((rustLines s).filter (fun l => !(isCommentLine l)))) := rfl

/-- On a carriage-return-free source that is empty or ends with a newline,
comment removal is idempotent. -/
theorem removeComments_idem (s : Str) (hcr : '\r' ∉ s)
    (hend : s = [] ∨ s.getLast? = some '\n') :
    removeComments (removeComments s) = removeComments s := by
  rcases hend with hnil | hlast
  · subst hnil; rfl
  · have hkept_facts : ∀ l ∈ (rustLines s).filter (fun l => !(isCommentLine l)),
        (∀ c ∈ l, c ≠ '\n') ∧ l.getLast? ≠ some '\r' := by
      intro l hlmem
      have hl2 := (List.mem_filter.mp hlmem).1
      constructor
      · intro c hc
        exact (rustLines_mem_chars (s.length + 1) s l hl2 c hc).2
      · intro hgl
        have hmem := getLast?_mem_of_eq l '\r' hgl
        exact hcr ((rustLines_mem_chars (s.length + 1) s l hl2 '\r' hmem).1)
    by_cases hres : joinNl ((rustLines s).filter (fun l => !(isCommentLine l))) = []
    · have ht : removeComments s = [] := by
        rw [removeComments_eq, hres]
        simp
      rw [ht]
      rfl
    · have ht : removeComments s
          = joinNl ((rustLines s).filter (fun l => !(isCommentLine l))) ++ ['\n'] := by
        rw [removeComments_eq, if_pos ⟨hlast, hres⟩]
      have hknil : (rustLines s).filter (fun l => !(isCommentLine l)) ≠ [] := by
        intro h0; exact hres (by rw [h0]; rfl)
      have hrl : rustLines (joinNl ((rustLines s).filter (fun l => !(isCommentLine l)))
            ++ ['\n'])
          = (rustLines s).filter (fun l => !(isCommentLine l)) :=
        rustLines_joinNl _ hknil hkept_facts
      have hfilt : ((rustLines s).filter (fun l => !(isCommentLine l))).filter
            (fun l => !(isCommentLine l))
          = (rustLines s).filter (fun l => !(isCommentLine l)) :=
        List.filter_eq_self.mpr (fun a ha => (List.mem_filter.mp ha).2)
      rw [ht, removeComments_eq, hrl, hfilt]
      rw [if_pos ⟨by simp, hres⟩]

/-- Directive extraction does not change a source in which no directive
span is found. -/
theorem extractDirectives_stripped (s : Str) (h : findDirectiveSpans s = []) :
    (extractDirectives s).text = s := by
  have he : (extractDirectives s).text = removeSpans s (findDirectiveSpans s) := rfl
  rw [he, h]
  rfl

/-- Claim C7 (amended): the normalize pass is idempotent on every input; comment
removal is idempotent on every carriage-return-free input that is empty or ends
with a newline; and directive extraction leaves a source with no directive
spans unchanged.  (The unrestricted comment-removal idempotence of the original
claim is false, see the counterexample.) -/
theorem C7_preprocess_idempotence :
    (∀ s : Str, normalizeText (normalizeText s) = normalizeText s)
    ∧ (∀ s : Str, '\r' ∉ s → (s = [] ∨ s.getLast? = some '\n') →
        removeComments (removeComments s) = removeComments s)
    ∧ (∀ s : Str, findDirectiveSpans s = [] → (extractDirectives s).text = s) :=
  ⟨normalizeText_idem, removeComments_idem, extractDirectives_stripped⟩

/-- Claim C7 counterexample: comment removal is not idempotent.  On
`"\n\n%%c"` one application yields `"\n"` (the two leading empty lines are
joined by a single separator once the comment line is dropped), and a second
application yields `""`. -/
theorem C7_counterexample :
    removeComments ("\n\n%%c".toList) = "\n".toList
    ∧ removeComments (removeComments ("\n\n%%c".toList)) = []
    ∧ removeComments (removeComments ("\n\n%%c".toList))
        ≠ removeComments ("\n\n%%c".toList) := by
  refine ⟨rfl, rfl, by decide⟩

/-- Claim C7 witness: the amended idempotence applied at concrete inputs. -/
theorem C7_preprocess_idempotence_witness :
    removeComments (removeComments ("A\n%%x\nB\n".toList))
        = removeComments ("A\n%%x\nB\n".toList)
    ∧ (extractDirectives ("graph TD".toList)).text = "graph TD".toList :=
  ⟨C7_preprocess_idempotence.2.1 ("A\n%%x\nB\n".toList) (by decide)
      (Or.inr (by decide)),
    C7_preprocess_idempotence.2.2 ("graph TD".toList) (by decide)⟩

theorem mergeSelect_assoc {α : Type} (p : α → Bool) (x y z : α) :
    (if p z then z else if p y then y else x)
      = (if p (if p z then z else y) then (if p z then z else y) else x) := by
  by_cases hz : p z
  · simp [hz]
  · simp [hz]

/-- Claim C6: configuration merge is right-biased on every optional field,
the wrap flag is monotone, merge with an equal configuration is the identity,
and merge is associative when the merged records set disjoint fields. -/
theorem C6_merge_algebra :
    (∀ a b : MermaidConfig,
        (a.merge b).flowchart.defaultRenderer
          = (if b.flowchart.defaultRenderer.isSome then b.flowchart.defaultRenderer
             else a.flowchart.defaultRenderer)
        ∧ (a.merge b).cls.defaultRenderer
          = (if b.cls.defaultRenderer.isSome then b.cls.defaultRenderer
             else a.cls.defaultRenderer)
        ∧ (a.merge b).state.defaultRenderer
          = (if b.state.defaultRenderer.isSome then b.state.defaultRenderer
             else a.state.defaultRenderer)
        ∧ (a.merge b).gantt.displayMode
          = (if b.gantt.displayMode.isSome then b.gantt.displayMode
             else a.gantt.displayMode)
        ∧ (a.merge b).layout = (if b.layout.isSome then b.layout else a.layout))
    ∧ (∀ a b : MermaidConfig, a.wrap = true → (a.merge b).wrap = true)
    ∧ (∀ a : MermaidConfig, a.merge a = a)
    ∧ (∀ a b c : MermaidConfig, b.fieldsDisjoint c →
        (a.merge b).merge c = a.merge (b.merge c)) := by
  refine ⟨?_, ?_, ?_, ?_⟩
  · intro a b
    refine ⟨?_, ?_, ?_, ?_, ?_⟩ <;>
      simp only [MermaidConfig.merge] <;> (try split) <;> rfl
  · intro a b h
    simp [MermaidConfig.merge, h]
  · intro a
    obtain ⟨f, cc, st, g, w, l⟩ := a
    simp only [MermaidConfig.merge, ite_self]
    cases w <;> rfl
  · intro a b c _
    simp only [MermaidConfig.merge, MermaidConfig.mk.injEq]
    refine ⟨?_, ?_, ?_, ?_, ?_, ?_⟩
    · exact mergeSelect_assoc (fun x => x.defaultRenderer.isSome)
        a.flowchart b.flowchart c.flowchart
    · exact mergeSelect_assoc (fun x => x.defaultRenderer.isSome) a.cls b.cls c.cls
    · exact mergeSelect_assoc (fun x => x.defaultRenderer.isSome) a.state b.state c.state
    · exact mergeSelect_assoc (fun x => x.displayMode.isSome) a.gantt b.gantt c.gantt
    · by_cases hcw : c.wrap = true <;> by_cases hbw : b.wrap = true <;>
        simp [hcw, hbw]
    · exact mergeSelect_assoc (fun x => x.isSome) a.layout b.layout c.layout

/-- Claim C6 witness: the hypothesis-bearing conjuncts applied at concrete
configurations. -/
theorem C6_merge_algebra_witness :
    ((⟨⟨none⟩, ⟨none⟩, ⟨none⟩, ⟨none⟩, true, none⟩ : MermaidConfig).merge
        MermaidConfig.default).wrap = true
    ∧ (MermaidConfig.default.merge
          (⟨⟨some ("elk".toList)⟩, ⟨none⟩, ⟨none⟩, ⟨none⟩, false, none⟩ :
            MermaidConfig)).merge
          (⟨⟨none⟩, ⟨none⟩, ⟨none⟩, ⟨none⟩, true, some ("dagre".toList)⟩ :
            MermaidConfig)
        = MermaidConfig.default.merge
          ((⟨⟨some ("elk".toList)⟩, ⟨none⟩, ⟨none⟩, ⟨none⟩, false, none⟩ :
            MermaidConfig).merge
          (⟨⟨none⟩, ⟨none⟩, ⟨none⟩, ⟨none⟩, true, some ("dagre".toList)⟩ :
            MermaidConfig)) :=
  ⟨C6_merge_algebra.2.1 _ _ rfl,
    C6_merge_algebra.2.2.2 _ _ _ (by decide)⟩

/-- Claim C1: for every source string and options value (and every choice of
the non-embedded per-kind parsers), `parse` returns `ok = true` exactly when
the result carries an AST and no diagnostic of severity `Error`. -/
theorem C1_ok_iff_ast_and_no_errors (P : DiagramParsers) (code : Str)
    (options : Option ParseOptions) :
    (parse P code options).ok = true ↔
      ((parse P code options).ast.isSome = true
        ∧ ∀ d ∈ (parse P code options).diagnostics, d.severity ≠ .Error) := by
  simp only [parse]
  split
  · simp [ParseResult.withTitle, ParseResult.failureSingle, ParseResult.failure,
      Diagnostic.new]
  · split
    · simp [ParseResult.withTitle, ParseResult.failureSingle, ParseResult.failure,
        Diagnostic.new]
    · split
      · simp [ParseResult.withTitle, ParseResult.failureSingle, ParseResult.failure,
          Diagnostic.new]
      · split
        · simp [ParseResult.success]
        · simp [ParseResult.failure]

/-- Claim C10: whenever `parse` reports success, its diagnostics list is
empty — non-error diagnostics collected by a diagram parser are discarded. -/
theorem C10_ok_implies_no_diagnostics (P : DiagramParsers) (code : Str)
    (options : Option ParseOptions) :
    (parse P code options).ok = true → (parse P code options).diagnostics = [] := by
  simp only [parse]
  split
  · simp [ParseResult.withTitle, ParseResult.failureSingle, ParseResult.failure]
  · split
    · simp [ParseResult.withTitle, ParseResult.failureSingle, ParseResult.failure]
    · split
      · simp [ParseResult.withTitle, ParseResult.failureSingle, ParseResult.failure]
      · split
        · simp [ParseResult.success]
        · simp [ParseResult.failure]

/-- Claim C10 witness: a successful concrete parse (the stubbed `info`
diagram) has an empty diagnostics list. -/
theorem C10_ok_implies_no_diagnostics_witness :
    (parse trivParsers ("info".toList) none).diagnostics = [] :=
  C10_ok_implies_no_diagnostics trivParsers ("info".toList) none rfl

/-- Every diagram kind routed to the stub branch produces a stub AST. -/
theorem parseDiagram_stub (P : DiagramParsers) (dt : DiagramType)
    (h : isStubKind dt = true) :
    ∀ code config, parseDiagram P dt code config = .ok (stubAst dt code) := by
  cases dt <;> first
    | (intro code config; rfl)
    | (simp [isStubKind] at h)

/-- Claim C9: for every diagram kind without a dedicated parser, the
dispatcher yields a single childless `Root` node carrying exactly the
properties `diagram_type` (the kind's slug) and `status = "stub"`, with no
diagnostics; a parse whose classifier returns such a kind succeeds. -/
theorem C9_stub_dispatch (P : DiagramParsers) (dt : DiagramType) (code : Str)
    (config : MermaidConfig) (h : isStubKind dt = true) :
    parseDiagram P dt code config = .ok (stubAst dt code)
    ∧ (stubAst dt code).root.kind = .Root
    ∧ (stubAst dt code).root.children = []
    ∧ (stubAst dt code).root.properties
        = [("diagram_type".toList, dt.asStr), ("status".toList, "stub".toList)]
    ∧ (∀ code2 : Str, ∀ opts : Option ParseOptions,
        detectType (preprocess code2).code
            (((opts.getD ParseOptions.default).baseConfig.getD
              MermaidConfig.default).merge (preprocess code2).config) = some dt →
        (parse P code2 opts).ok = true ∧ (parse P code2 opts).diagnostics = []) := by
  refine ⟨parseDiagram_stub P dt h code config, rfl, rfl, rfl, ?_⟩
  intro code2 opts hdet
  have h1 : dt ≠ .Error := by
    intro he; subst he; simp [isStubKind] at h
  have h2 : dt ≠ .BadFrontmatter := by
    intro he; subst he; simp [isStubKind] at h
  have hres : parse P code2 opts
      = { ParseResult.success dt
            (((opts.getD ParseOptions.default).baseConfig.getD
              MermaidConfig.default).merge (preprocess code2).config)
            (stubAst dt (if dt.needsEntityEncoding
              then encodeEntities (preprocess code2).code
              else (preprocess code2).code)) with
          title := (preprocess code2).title } := by
    simp only [parse]
    rw [hdet]
    simp only [if_neg h1, if_neg h2, parseDiagram_stub P dt h]
  rw [hres]
  exact ⟨rfl, rfl⟩

/-- Claim C9 witness: the Mindmap kind is stubbed, and a concrete `mindmap`
source parses successfully through the stub branch. -/
theorem C9_stub_dispatch_witness :
    parseDiagram trivParsers .Mindmap ("mindmap".toList) MermaidConfig.default
        = .ok (stubAst .Mindmap ("mindmap".toList))
    ∧ (parse trivParsers ("mindmap".toList) none).ok = true :=
  ⟨(C9_stub_dispatch trivParsers .Mindmap ("mindmap".toList)
      MermaidConfig.default rfl).1,
    ((C9_stub_dispatch trivParsers .Mindmap ("mindmap".toList)
      MermaidConfig.default rfl).2.2.2.2 ("mindmap".toList) none (by rfl)).1⟩

/-- Claim C3: each of the three empty-shape inputs parses to a failed
Flowchart result whose single diagnostic is an E301 `ParserError` spanning
the opening delimiter (byte 15). -/
theorem C3_empty_shape_bodies (P : DiagramParsers) :
    (parse P ("graph TD; A-->B[]".toList) none
        = ⟨false, some .Flowchart, MermaidConfig.default, none,
            [Diagnostic.error .ParserError
              "Empty node label is not allowed".toList ⟨15, 16⟩], none⟩
      ∧ ("graph TD; A-->B[]".toList).get? 15 = some '[')
    ∧ (parse P ("graph TD; A-->B()".toList) none
        = ⟨false, some .Flowchart, MermaidConfig.default, none,
            [Diagnostic.error .ParserError
              "Empty node label is not allowed".toList ⟨15, 16⟩], none⟩
      ∧ ("graph TD; A-->B()".toList).get? 15 = some '(')
    ∧ (parse P ("graph TD; A-->B\x7b\x7d".toList) none
        = ⟨false, some .Flowchart, MermaidConfig.default, none,
            [Diagnostic.error .ParserError
              "Empty node label is not allowed".toList ⟨15, 16⟩], none⟩
      ∧ ("graph TD; A-->B\x7b\x7d".toList).get? 15 = some lbraceC)
    ∧ DiagnosticCode.ParserError.asStr = "E301".toList :=
  ⟨⟨rfl, rfl⟩, ⟨rfl, rfl⟩, ⟨rfl, rfl⟩, rfl⟩

/-- Claim C4: the source `"graph TD\n    A --> B"` parses successfully as a
Flowchart whose root holds a `DiagramDeclaration` with direction
`TopToBottom` followed by one `Edge` statement chaining `Node A` (Rectangle)
through an `Arrow` link to `Node B` (Rectangle). -/
theorem C4_graph_td_ast (P : DiagramParsers) :
    parse P ("graph TD\n    A --> B".toList) none =
      ⟨true, some .Flowchart, MermaidConfig.default,
        some ⟨AstNode.mk .Root ⟨0, 20⟩ none
          [AstNode.mk .DiagramDeclaration ⟨0, 8⟩ (some ("graph".toList)) [] []
            [("direction".toList, "TopToBottom".toList)],
           AstNode.mk .Edge ⟨13, 20⟩ none
            [AstNode.mk .Node ⟨13, 14⟩ (some ("A".toList)) [] []
              [("id".toList, "A".toList), ("shape".toList, "Rectangle".toList)],
             AstNode.mk .Edge ⟨13, 20⟩ none
              [AstNode.mk .Node ⟨19, 20⟩ (some ("B".toList)) [] []
                [("id".toList, "B".toList), ("shape".toList, "Rectangle".toList)]]
              [] [("link_type".toList, "Arrow".toList)]]
            [] []]
          [] [],
          "graph TD\n    A --> B".toList⟩,
        [], none⟩ := rfl

theorem replCR_cons_cr (r : Str) (h : ∀ r2 : Str, r ≠ '\n' :: r2) :
    replCR ('\r' :: r) = '\n' :: replCR r := by
  rw [replCR.eq_def]
  split
  all_goals try simp_all
  all_goals (rename_i hne heq; exact absurd heq.1.symm hne)

/-- Characters of `replCR s` come from `s` or are the substituted newline. -/
theorem replCR_chars : ∀ s : Str, ∀ c ∈ replCR s, c ∈ s ∨ c = '\n' := by
  intro s
  induction s using replCR.induct with
  | case1 => intro c hc; simp [replCR] at hc
  | case2 r ih =>
    intro c hc
    simp only [replCR, List.mem_cons] at hc
    rcases hc with hc | hc
    · right; exact hc
    · rcases ih c hc with h | h
      · left; simp [h]
      · right; exact h
  | case3 r h3 ih =>
    intro c hc
    rw [replCR_cons_cr r h3] at hc
    rcases List.mem_cons.mp hc with hc | hc
    · right; exact hc
    · rcases ih c hc with h | h
      · left; simp [h]
      · right; exact h
  | case4 c0 r h1 h2 ih =>
    intro c hc
    rw [replCR_cons_ne c0 r h2] at hc
    rcases List.mem_cons.mp hc with hc | hc
    · left; simp [hc]
    · rcases ih c hc with h | h
      · left; simp [h]
      · right; exact h

theorem replCR_ws (s : Str) (h : ∀ c ∈ s, isWs c = true) :
    ∀ c ∈ replCR s, isWs c = true := by
  intro c hc
  rcases replCR_chars s c hc with h2 | h2
  · exact h c h2
  · rw [h2]; decide

theorem not_dash_prefix (s : Str) (h : ∀ c ∈ s, isWs c = true) :
    ("---".toList).isPrefixOf s = false := by
  cases s with
  | nil => rfl
  | cons c r =>
    have hc := h c (by simp)
    have hcne : ('-' == c) = false := by
      cases hbc : ('-' == c)
      · rfl
      · have he : '-' = c := eq_of_beq hbc
        rw [← he] at hc
        exact absurd hc (by decide)
    simp [List.isPrefixOf, hcne]

theorem subIndexOf_ws_none : ∀ s : Str, (∀ c ∈ s, isWs c = true) →
    subIndexOf ("%%".toList ++ [lbraceC]) s = none := by
  intro s
  induction s with
  | nil => intro _; rfl
  | cons c r ih =>
    intro h
    have hc := h c (by simp)
    have hpre : ("%%".toList ++ [lbraceC]).isPrefixOf (c :: r) = false := by
      have hcne : ('%' == c) = false := by
        cases hbc : ('%' == c)
        · rfl
        · have he : '%' = c := eq_of_beq hbc
          rw [← he] at hc
          exact absurd hc (by decide)
      simp [List.isPrefixOf, hcne]
    simp only [subIndexOf, hpre]
    simp
    exact ih (fun d hd => h d (by simp [hd]))

theorem joinNl_chars : ∀ ls : List Str, ∀ c ∈ joinNl ls,
    (∃ l ∈ ls, c ∈ l) ∨ c = '\n' := by
  intro ls
  induction ls with
  | nil => intro c hc; simp [joinNl] at hc
  | cons l ls' ih =>
    intro c hc
    cases ls' with
    | nil => exact Or.inl ⟨l, by simp, hc⟩
    | cons l2 ls'' =>
      have he : joinNl (l :: l2 :: ls'') = l ++ '\n' :: joinNl (l2 :: ls'') := rfl
      rw [he] at hc
      rcases List.mem_append.mp hc with h | h
      · exact Or.inl ⟨l, by simp, h⟩
      · rcases List.mem_cons.mp h with h | h
        · right; exact h
        · rcases ih c h with ⟨l3, hl3, hcl3⟩ | h2
          · exact Or.inl ⟨l3, by simp [hl3], hcl3⟩
          · right; exact h2

theorem removeComments_chars (s : Str) : ∀ c ∈ removeComments s, c ∈ s ∨ c = '\n' := by
  intro c hc
  rw [removeComments_eq] at hc
  split at hc
  · rcases List.mem_append.mp hc with h | h
    · rcases joinNl_chars _ c h with ⟨l, hl, hcl⟩ | h2
      · exact Or.inl
          (rustLines_mem_chars (s.length + 1) s l (List.mem_filter.mp hl).1 c hcl).1
      · right; exact h2
    · right; simpa using h
  · rcases joinNl_chars _ c hc with ⟨l, hl, hcl⟩ | h2
    · exact Or.inl
        (rustLines_mem_chars (s.length + 1) s l (List.mem_filter.mp hl).1 c hcl).1
    · right; exact h2

theorem trimStr_ws_nil (s : Str) (h : ∀ c ∈ s, isWs c = true) : trimStr s = [] := by
  have h1 : trimStart s = [] := by
    simp only [trimStart]
    exact List.dropWhile_eq_nil_iff.mpr (fun a ha => by simpa using h a ha)
  simp [trimStr, h1, trimEnd]

/-- Any source that trims to the empty string defeats every classifier
alternative, so `detect_type` returns `None`. -/
theorem detectType_trim_nil (text0 : Str) (config : MermaidConfig)
    (h : trimStr text0 = []) : detectType text0 config = none := by
  simp only [detectType]
  rw [h]
  rfl

/-- Claim C8: an empty or whitespace-only source fails with no detected
diagram kind and exactly one diagnostic, E001 `UnknownDiagram`. -/
theorem C8_empty_and_whitespace (P : DiagramParsers) (opts : Option ParseOptions)
    (s : Str) (h : ∀ c ∈ s, isWs c = true) :
    parse P s opts = ⟨false, none, MermaidConfig.default, none,
        [Diagnostic.new .UnknownDiagram "Could not detect diagram type".toList
          .Error Span.default], none⟩
    ∧ DiagnosticCode.UnknownDiagram.asStr = "E001".toList := by
  refine ⟨?_, rfl⟩
  have hws1 : ∀ c ∈ replCR s, isWs c = true := replCR_ws s h
  have hnormal : normalizeText s = replCR s := by
    show fixTags (replCR s) = replCR s
    exact fixTags_nolt _ (fun c hc he => absurd (he ▸ hws1 c hc) (by decide))
  have hpre : ("---".toList).isPrefixOf (replCR s) = false := not_dash_prefix _ hws1
  have hcap : frontmatterCapture (replCR s) = none := by
    simp only [frontmatterCapture, hpre]
    rfl
  have hfm : extractFrontmatter (replCR s)
      = ⟨replCR s, none, none, MermaidConfig.default⟩ := by
    simp only [extractFrontmatter, hcap]
  have hsub : subIndexOf ("%%".toList ++ [lbraceC]) (replCR s) = none :=
    subIndexOf_ws_none _ hws1
  have hfd : findDirectiveSpans (replCR s) = [] := by
    simp only [findDirectiveSpans, findSpansAux]
    rw [hsub]
  have hdr : extractDirectives (replCR s)
      = ⟨replCR s, MermaidConfig.default, false⟩ := by
    simp only [extractDirectives, hfd]
    rfl
  have hpre2 : preprocess s
      = ⟨removeComments (replCR s), none, MermaidConfig.default⟩ := by
    simp only [preprocess, hnormal, hfm, hdr]
    rfl
  have hws2 : ∀ c ∈ removeComments (replCR s), isWs c = true := by
    intro c hc
    rcases removeComments_chars _ c hc with h2 | h2
    · exact hws1 c h2
    · rw [h2]; decide
  have hdet : detectType (removeComments (replCR s))
      (((opts.getD ParseOptions.default).baseConfig.getD
        MermaidConfig.default).merge MermaidConfig.default) = none :=
    detectType_trim_nil _ _ (trimStr_ws_nil _ hws2)
  simp only [parse, hpre2]
  rw [hdet]
  rfl

/-- Claim C8 witness: a concrete whitespace-only source yields the single
E001 diagnostic. -/
theorem C8_empty_and_whitespace_witness :
    parse trivParsers ("  \n\t ".toList) none
      = ⟨false, none, MermaidConfig.default, none,
          [Diagnostic.new .UnknownDiagram "Could not detect diagram type".toList
            .Error Span.default], none⟩ :=
  (C8_empty_and_whitespace trivParsers none ("  \n\t ".toList) (by decide)).1

/-- Claim C2 (amended): when the frontmatter pass finds an opening and
closing block, a YAML parse failure leaves the input unchanged with no
title, displayMode or config; but a root value that is not a mapping
STRIPS the block (the text after the match is returned), still with no
title, displayMode and a default config.  (The original claim said the
input is returned unchanged in the non-mapping case as well; the code
strips it, see the counterexample.) -/
theorem C2_frontmatter_non_mapping (text : Str) (content : Str) (endp : Nat)
    (hcap : frontmatterCapture text = some (content, endp)) :
    (parseYaml content = none →
      extractFrontmatter text = ⟨text, none, none, MermaidConfig.default⟩)
    ∧ (∀ v, parseYaml content = some v → (∀ kvs, v ≠ .map kvs) →
      extractFrontmatter text
        = ⟨text.drop endp, none, none, MermaidConfig.default⟩) := by
  constructor
  · intro hy
    simp only [extractFrontmatter, hcap, hy]
  · intro v hy hnm
    cases v with
    | map kvs => exact absurd rfl (hnm kvs)
    | null => simp only [extractFrontmatter, hcap, hy]
    | str t => simp only [extractFrontmatter, hcap, hy]

/-- Claim C2 counterexample: on `"---\nhello\n---\nx"` the frontmatter
block closes, the enclosed YAML parses to the non-mapping scalar `hello`,
and `extract_frontmatter` returns `"x"` — the block was stripped, not
returned unchanged. -/
theorem C2_counterexample :
    frontmatterCapture ("---\nhello\n---\nx".toList)
        = some ("hello".toList, 14)
    ∧ parseYaml ("hello".toList) = some (.str ("hello".toList))
    ∧ (∀ kvs, Yaml.str ("hello".toList) ≠ .map kvs)
    ∧ (extractFrontmatter ("---\nhello\n---\nx".toList)).text = "x".toList
    ∧ (extractFrontmatter ("---\nhello\n---\nx".toList)).text
        ≠ "---\nhello\n---\nx".toList :=
  ⟨rfl, rfl, fun kvs h => Yaml.noConfusion h, rfl, by decide⟩

/-- Claim C2 witness: the amended theorem applied at the concrete input. -/
theorem C2_frontmatter_non_mapping_witness :
    extractFrontmatter ("---\nhello\n---\nx".toList)
      = ⟨"x".toList, none, none, MermaidConfig.default⟩ := by
  have h := (C2_frontmatter_non_mapping ("---\nhello\n---\nx".toList)
      ("hello".toList) 14 rfl).2 (Yaml.str ("hello".toList)) rfl
      (fun kvs h2 => Yaml.noConfusion h2)
  exact h

theorem dropWhile_fix_head {p : Char → Bool} (c : Char) (r : Str)
    (h : (c :: r).dropWhile p = c :: r) : p c = false := by
  by_cases hp : p c = true
  · rw [List.dropWhile_cons, if_pos hp] at h
    have h2 := (r.dropWhile_sublist p).length_le
    rw [h] at h2
    simp at h2
  · simpa using hp

/-- A trimmed string has no leading whitespace, so re-trimming its start is
the identity. -/
theorem trimStart_trimStr (s : Str) : trimStart (trimStr s) = trimStr s := by
  cases hts : trimStr s with
  | nil => rfl
  | cons c r =>
    have hpre : (c :: r) <+: trimStart s := by
      rw [← hts]
      show trimEnd (trimStart s) <+: trimStart s
      simp only [trimEnd]
      have hsuf : (trimStart s).reverse.dropWhile (fun c => isWs c)
          <:+ (trimStart s).reverse := List.dropWhile_suffix _
      have h2 := List.reverse_prefix.mpr hsuf
      simpa using h2
    obtain ⟨rest, hrest⟩ := hpre
    have h2 : s.dropWhile (fun c => isWs c) = c :: (r ++ rest) := by
      show trimStart s = c :: (r ++ rest)
      rw [← hrest]
      simp
    have hcws : isWs c = false := by
      have h3 := dropWhile_cons_head (p := fun c => isWs c) s c (r ++ rest) h2
      simpa using h3
    simp [trimStart, List.dropWhile_cons, hcws]

theorem kwbm_head_ne (d : Char) (kwrest : Str) (c1 : Char) (t1 : Str)
    (hws : isWs c1 = false) (hne : ¬ lowerC d = lowerC c1) :
    kwBoundaryMatch (d :: kwrest) (c1 :: t1) = false := by
  have h1 : trimStart (c1 :: t1) = c1 :: t1 := by
    simp [trimStart, List.dropWhile_cons, hws]
  simp [kwBoundaryMatch, h1, isPrefixOfCI, lowerStr, List.isPrefixOf, hne]

theorem kwbm_two_char_ne (d1 d2 : Char) (kwrest : Str) (c1 c2 : Char) (t2 : Str)
    (hws : isWs c1 = false) (h1 : lowerC d1 = lowerC c1) (hne : ¬ lowerC d2 = lowerC c2) :
    kwBoundaryMatch (d1 :: d2 :: kwrest) (c1 :: c2 :: t2) = false := by
  have ht1 : trimStart (c1 :: c2 :: t2) = c1 :: c2 :: t2 := by
    simp [trimStart, List.dropWhile_cons, hws]
  simp [kwBoundaryMatch, ht1, isPrefixOfCI, lowerStr, List.isPrefixOf, h1, hne]

/-- A source whose first keyword is `graph` (case-insensitively, with a word
boundary) is classified by the flowchart-renderer configuration alone. -/
theorem detectType_graph (text : Str) (config : MermaidConfig)
    (H : kwBoundaryMatch ("graph".toList) (trimStr text) = true) :
    detectType text config =
      (if config.flowchart.defaultRenderer = some ("elk".toList) then some .FlowchartElk
       else if config.flowchart.defaultRenderer = some ("dagre-wrapper".toList)
         then some .FlowchartV2
       else some .Flowchart) := by
  have htrim := trimStart_trimStr text
  cases ht : trimStr text with
  | nil =>
    rw [ht] at H
    simp [kwBoundaryMatch, trimStart, isPrefixOfCI, lowerStr, List.isPrefixOf] at H
  | cons c1 t1 =>
  rw [ht] at H htrim
  have hc1ws : isWs c1 = false := by
    have h3 := dropWhile_fix_head c1 t1 htrim
    simpa using h3
  have htst0 : trimStart (c1 :: t1) = c1 :: t1 := by
    simp [trimStart, List.dropWhile_cons, hc1ws]
  cases t1 with
  | nil => simp [kwBoundaryMatch, htst0, isPrefixOfCI, lowerStr, List.isPrefixOf] at H
  | cons c2 t2 =>
  cases t2 with
  | nil => simp [kwBoundaryMatch, htst0, isPrefixOfCI, lowerStr, List.isPrefixOf] at H
  | cons c3 t3 =>
  cases t3 with
  | nil => simp [kwBoundaryMatch, htst0, isPrefixOfCI, lowerStr, List.isPrefixOf] at H
  | cons c4 t4 =>
  cases t4 with
  | nil => simp [kwBoundaryMatch, htst0, isPrefixOfCI, lowerStr, List.isPrefixOf] at H
  | cons c5 t5 =>
  have H5 := H
  simp [kwBoundaryMatch, htst0, isPrefixOfCI, lowerStr, List.isPrefixOf] at H5
  obtain ⟨⟨p1, p2, p3, p4, p5⟩, pbnd⟩ := H5
  have hl1 : lowerC c1 = 'g' := p1.symm.trans (by decide)
  have hl2 : lowerC c2 = 'r' := p2.symm.trans (by decide)
  have hl3 : lowerC c3 = 'a' := p3.symm.trans (by decide)
  have hl4 : lowerC c4 = 'p' := p4.symm.trans (by decide)
  have hl5 : lowerC c5 = 'h' := p5.symm.trans (by decide)
  have herr : ¬ (lowerStr (c1 :: c2 :: c3 :: c4 :: c5 :: t5)
      = ['e', 'r', 'r', 'o', 'r']) := by
    simp [lowerStr, hl1]
  have hc1ne : ¬ ('-' = c1) := by
    intro he
    rw [← he] at hl1
    exact absurd hl1 (by decide)
  have hdash : ("---".toList).isPrefixOf (trimStart (c1 :: c2 :: c3 :: c4 :: c5 :: t5))
      = false := by
    simp [htst0, List.isPrefixOf, hc1ne]
  have e01 : kwBoundaryMatch ("flowchart-elk".toList) (c1 :: c2 :: c3 :: c4 :: c5 :: t5)
      = false := kwbm_head_ne 'f' ("lowchart-elk".toList) c1 _ hc1ws (by rw [hl1]; decide)
  have e02 : kwBoundaryMatch ("mindmap".toList) (c1 :: c2 :: c3 :: c4 :: c5 :: t5)
      = false := kwbm_head_ne 'm' ("indmap".toList) c1 _ hc1ws (by rw [hl1]; decide)
  have e03 : kwBoundaryMatch ("architecture-beta".toList) (c1 :: c2 :: c3 :: c4 :: c5 :: t5)
      = false := kwbm_head_ne 'a' ("rchitecture-beta".toList) c1 _ hc1ws (by rw [hl1]; decide)
  have e04 : kwBoundaryMatch ("architecture".toList) (c1 :: c2 :: c3 :: c4 :: c5 :: t5)
      = false := kwbm_head_ne 'a' ("rchitecture".toList) c1 _ hc1ws (by rw [hl1]; decide)
  have e05 : kwBoundaryMatch ("C4Context".toList) (c1 :: c2 :: c3 :: c4 :: c5 :: t5)
      = false := kwbm_head_ne 'C' ("4Context".toList) c1 _ hc1ws (by rw [hl1]; decide)
  have e06 : kwBoundaryMatch ("C4Container".toList) (c1 :: c2 :: c3 :: c4 :: c5 :: t5)
      = false := kwbm_head_ne 'C' ("4Container".toList) c1 _ hc1ws (by rw [hl1]; decide)
  have e07 : kwBoundaryMatch ("C4Component".toList) (c1 :: c2 :: c3 :: c4 :: c5 :: t5)
      = false := kwbm_head_ne 'C' ("4Component".toList) c1 _ hc1ws (by rw [hl1]; decide)
  have e08 : kwBoundaryMatch ("C4Dynamic".toList) (c1 :: c2 :: c3 :: c4 :: c5 :: t5)
      = false := kwbm_head_ne 'C' ("4Dynamic".toList) c1 _ hc1ws (by rw [hl1]; decide)
  have e09 : kwBoundaryMatch ("C4Deployment".toList) (c1 :: c2 :: c3 :: c4 :: c5 :: t5)
      = false := kwbm_head_ne 'C' ("4Deployment".toList) c1 _ hc1ws (by rw [hl1]; decide)
  have e10 : kwBoundaryMatch ("kanban".toList) (c1 :: c2 :: c3 :: c4 :: c5 :: t5)
      = false := kwbm_head_ne 'k' ("anban".toList) c1 _ hc1ws (by rw [hl1]; decide)
  have e11 : kwBoundaryMatch ("classDiagram-v2".toList) (c1 :: c2 :: c3 :: c4 :: c5 :: t5)
      = false := kwbm_head_ne 'c' ("lassDiagram-v2".toList) c1 _ hc1ws (by rw [hl1]; decide)
  have e12 : kwBoundaryMatch ("classDiagram".toList) (c1 :: c2 :: c3 :: c4 :: c5 :: t5)
      = false := kwbm_head_ne 'c' ("lassDiagram".toList) c1 _ hc1ws (by rw [hl1]; decide)
  have e13 : kwBoundaryMatch ("erDiagram".toList) (c1 :: c2 :: c3 :: c4 :: c5 :: t5)
      = false := kwbm_head_ne 'e' ("rDiagram".toList) c1 _ hc1ws (by rw [hl1]; decide)
  have e14 : kwBoundaryMatch ("gantt".toList) (c1 :: c2 :: c3 :: c4 :: c5 :: t5)
      = false := kwbm_two_char_ne 'g' 'a' ("ntt".toList) c1 c2 _ hc1ws
        (by rw [hl1]; decide) (by rw [hl2]; decide)
  have e15 : kwBoundaryMatch ("info".toList) (c1 :: c2 :: c3 :: c4 :: c5 :: t5)
      = false := kwbm_head_ne 'i' ("nfo".toList) c1 _ hc1ws (by rw [hl1]; decide)
  have e16 : kwBoundaryMatch ("pie".toList) (c1 :: c2 :: c3 :: c4 :: c5 :: t5)
      = false := kwbm_head_ne 'p' ("ie".toList) c1 _ hc1ws (by rw [hl1]; decide)
  have e17 : kwBoundaryMatch ("requirementDiagram".toList) (c1 :: c2 :: c3 :: c4 :: c5 :: t5)
      = false := kwbm_head_ne 'r' ("equirementDiagram".toList) c1 _ hc1ws (by rw [hl1]; decide)
  have e18 : kwBoundaryMatch ("requirement".toList) (c1 :: c2 :: c3 :: c4 :: c5 :: t5)
      = false := kwbm_head_ne 'r' ("equirement".toList) c1 _ hc1ws (by rw [hl1]; decide)
  have e19 : kwBoundaryMatch ("sequenceDiagram".toList) (c1 :: c2 :: c3 :: c4 :: c5 :: t5)
      = false := kwbm_head_ne 's' ("equenceDiagram".toList) c1 _ hc1ws (by rw [hl1]; decide)
  have e20 : kwBoundaryMatch ("flowchart".toList) (c1 :: c2 :: c3 :: c4 :: c5 :: t5)
      = false := kwbm_head_ne 'f' ("lowchart".toList) c1 _ hc1ws (by rw [hl1]; decide)
  simp only [detectType]
  rw [ht]
  simp only [reAny, List.any_cons, List.any_nil, Bool.or_false]
  simp only [e01, e02, e03, e04, e05, e06, e07, e08, e09, e10, e11, e12, e13,
    e14, e15, e16, e17, e18, e19, e20, H, hdash]
  simp [herr]

/-- Claim C5: a source whose first keyword is `graph` is classified from the
merged flowchart renderer (default → Flowchart, `dagre-wrapper` →
FlowchartV2, `elk` → FlowchartElk); in particular the concrete
frontmatter-elk source parses ok as FlowchartElk with title `T` and the elk
renderer in its merged config. -/
theorem C5_graph_renderer_classification :
    (∀ (text : Str) (config : MermaidConfig),
      kwBoundaryMatch ("graph".toList) (trimStr text) = true →
      detectType text config =
        (if config.flowchart.defaultRenderer = some ("elk".toList)
          then some .FlowchartElk
         else if config.flowchart.defaultRenderer = some ("dagre-wrapper".toList)
          then some .FlowchartV2
         else some .Flowchart))
    ∧ (∀ P : DiagramParsers,
        parse P
          ("---\ntitle: T\nconfig:\n  flowchart:\n    defaultRenderer: elk\n---\ngraph TD\n    A-->B".toList)
          none
          = ⟨true, some .FlowchartElk,
              ⟨⟨some ("elk".toList)⟩, ⟨none⟩, ⟨none⟩, ⟨none⟩, false, none⟩,
              some ⟨AstNode.mk .Root ⟨0, 18⟩ none
                [AstNode.mk .DiagramDeclaration ⟨0, 8⟩ (some ("graph".toList)) [] []
                  [("direction".toList, "TopToBottom".toList)],
                 AstNode.mk .Edge ⟨13, 18⟩ none
                  [AstNode.mk .Node ⟨13, 14⟩ (some ("A".toList)) [] []
                    [("id".toList, "A".toList), ("shape".toList, "Rectangle".toList)],
                   AstNode.mk .Edge ⟨13, 18⟩ none
                    [AstNode.mk .Node ⟨17, 18⟩ (some ("B".toList)) [] []
                      [("id".toList, "B".toList), ("shape".toList, "Rectangle".toList)]]
                    [] [("link_type".toList, "Arrow".toList)]]
                  [] []]
                [] [],
                "graph TD\n    A-->B".toList⟩,
              [], some ("T".toList)⟩) :=
  ⟨detectType_graph, fun _ => rfl⟩

/-- Claim C5 witness: the classifier conjunct applied at a concrete `graph`
source with the default configuration. -/
theorem C5_graph_renderer_classification_witness :
    detectType ("graph TD".toList) MermaidConfig.default
      = (if MermaidConfig.default.flowchart.defaultRenderer = some ("elk".toList)
          then some DiagramType.FlowchartElk
         else if MermaidConfig.default.flowchart.defaultRenderer
            = some ("dagre-wrapper".toList) then some DiagramType.FlowchartV2
         else some DiagramType.Flowchart) :=
  C5_graph_renderer_classification.1 ("graph TD".toList) MermaidConfig.default
    (by decide)
